import Mathlib

/-!
Verification of the PoreSippr-GUI incremental result-aggregation pipeline.

This development shallowly embeds the core data transformations of
`methods.py` (and the metadata validation of `main.py`) as executable Lean
definitions and proves properties of them:

* `create_data_dict` — derivation of a per-sample report record from a
  gene-coverage table (serotypes, toxin and virulence read totals, the
  GDCS count and the sequencing depth);
* `get_sorted_barcode_values` — barcode-list normalisation;
* the metadata loader of `main` and `validate_seqid_entries` of the GUI;
* the polling loop of `main` — iteration grouping, readiness gating, the
  processed-file ledger and per-iteration rendering;
* the worker-process supervision of `main` — exit detection, joining the
  output-reader threads and surfacing captured stderr.

Python strings are modelled as Lean `String`s, numeric cell values as `ℚ`
(with `none : Option ℚ` standing for pandas' NaN), and Python dictionaries
as insertion-ordered association lists.
-/

namespace PoreSippr

/-! ## String utilities mirroring the Python operations used by the code -/

/-- `listStartsWith l pat` is true when `l` begins with `pat`. -/
def listStartsWith : List Char → List Char → Bool
  | _, [] => true
  | [], _ :: _ => false
  | a :: as, b :: bs => a == b && listStartsWith as bs

/-- Substring containment on character lists: some suffix of `l` starts with
`pat`.  This models Python's `in` operator and
`pandas.Series.str.contains` with a literal pattern. -/
def listContainsSub : List Char → List Char → Bool
  | [], pat => pat.isEmpty
  | l@(_ :: as), pat => listStartsWith l pat || listContainsSub as pat

/-- Case-sensitive substring test on strings (`pat in s`). -/
def strContains (s pat : String) : Bool :=
  listContainsSub s.toList pat.toList

/-- Case-insensitive substring test, modelling
`Series.str.contains(pat, case=False)`: both sides are lower-cased. -/
def strContainsCI (s pat : String) : Bool :=
  listContainsSub (s.toList.map Char.toLower) (pat.toList.map Char.toLower)

/-- Split a character list on a separator character, keeping empty pieces,
like Python's `str.split(sep)` for a one-character separator. -/
def splitOnChar (sep : Char) : List Char → List (List Char)
  | [] => [[]]
  | c :: cs =>
    match splitOnChar sep cs with
    | [] => [[]]
    | h :: t => if c == sep then [] :: h :: t else (c :: h) :: t

/-- `str.split(sep)` for a one-character separator. -/
def pySplit (sep : Char) (s : String) : List String :=
  (splitOnChar sep s.toList).map String.mk

/-- `str.rstrip()`: drop trailing whitespace. -/
def rstrip (s : String) : String :=
  String.mk (s.toList.reverse.dropWhile Char.isWhitespace).reverse

/-- `str.replace('X', '')`: remove every capital `X`. -/
def stripX (s : String) : String :=
  String.mk (s.toList.filter (fun c => c != 'X'))

/-- Strip one trailing `X` unit suffix, if present (the specification's
reading of the numeric normalisation). -/
def stripTrailingX (s : String) : String :=
  if s.toList.getLast? = some 'X' then String.mk s.toList.dropLast else s

/-- `str.zfill(width)`: left-pad with zeros to at least `width` characters,
inserting the padding after a leading sign. -/
def zfill (width : Nat) (s : String) : String :=
  let cs := s.toList
  let pad := width - cs.length
  match cs with
  | [] => String.mk (List.replicate pad '0')
  | c :: rest =>
    if c == '+' || c == '-' then String.mk (c :: (List.replicate pad '0' ++ rest))
    else String.mk (List.replicate pad '0' ++ cs)

/-- Numeric value of a list of decimal digit characters. -/
def digitsVal (l : List Char) : Nat :=
  l.foldl (fun a c => 10 * a + (c.toNat - 48)) 0

/-- Python's `int(s)`: optional surrounding whitespace and sign, then a
non-empty run of decimal digits. -/
def pyIntOfString (s : String) : Option ℤ :=
  let cs := s.toList.dropWhile Char.isWhitespace
  let cs := (cs.reverse.dropWhile Char.isWhitespace).reverse
  match cs with
  | '-' :: ds =>
    if ds.isEmpty then none
    else if ds.all Char.isDigit then some (-(digitsVal ds : ℤ)) else none
  | '+' :: ds =>
    if ds.isEmpty then none
    else if ds.all Char.isDigit then some (digitsVal ds : ℤ) else none
  | ds =>
    if ds.isEmpty then none
    else if ds.all Char.isDigit then some (digitsVal ds : ℤ) else none

/-- Parse a decimal numeral (optional surrounding whitespace, optional sign,
digits with at most one decimal point), the numeric shape occurring in the
gene-coverage tables.  Anything else is `none`, modelling the NaN produced
by `pd.to_numeric(..., errors='coerce')`. -/
def parseDecimal (s : String) : Option ℚ :=
  let cs := s.toList.dropWhile Char.isWhitespace
  let cs := (cs.reverse.dropWhile Char.isWhitespace).reverse
  let signBody : ℤ × List Char :=
    match cs with
    | '-' :: rest => (-1, rest)
    | '+' :: rest => (1, rest)
    | _ => (1, cs)
  let sign := signBody.1
  let body := signBody.2
  let intPart := body.takeWhile (fun c => c != '.')
  match body.dropWhile (fun c => c != '.') with
  | [] =>
    if intPart.isEmpty then none
    else if intPart.all Char.isDigit then
      some (Rat.divInt (sign * (digitsVal intPart : ℤ)) 1)
    else none
  | _ :: frac =>
    if intPart.isEmpty && frac.isEmpty then none
    else if intPart.all Char.isDigit && frac.all Char.isDigit then
      some (Rat.divInt
        (sign * ((digitsVal intPart : ℤ) * (10 : ℤ) ^ frac.length + (digitsVal frac : ℤ)))
        ((10 : ℤ) ^ frac.length))
    else none

/-- Python's `int(x)` on a number: truncation toward zero. -/
def pyTrunc (q : ℚ) : ℤ := q.num.tdiv (q.den : ℤ)

/-- Round a rational to the nearest integer, ties to even, modelling
Python's `round`. -/
def roundHalfEven (x : ℚ) : ℤ :=
  let n := x.num
  let d := (x.den : ℤ)
  let f := Rat.floor x
  let twice := 2 * (n - f * d)
  if twice < d then f
  else if d < twice then f + 1
  else if 2 ∣ f then f else f + 1

/-- `round(x, 2)`: round to two decimal places (ties to even). -/
def round2 (q : ℚ) : ℚ :=
  Rat.divInt (roundHalfEven (Rat.divInt (q.num * 100) (q.den : ℤ))) 100

/-- Kernel-computable addition on `ℚ` (the library `Rat.add` does not
reduce definitionally); `qAdd_eq_add` identifies it with `+`. -/
def qAdd (a b : ℚ) : ℚ :=
  Rat.divInt (a.num * (b.den : ℤ) + b.num * (a.den : ℤ)) ((a.den : ℤ) * (b.den : ℤ))

/-- Sum of a list of rationals via `qAdd`. -/
def qSum (l : List ℚ) : ℚ := l.foldr qAdd 0

theorem qAdd_eq_add (a b : ℚ) : qAdd a b = a + b := by
  unfold qAdd
  rw [← Rat.num_divInt_den a, ← Rat.num_divInt_den b, Rat.divInt_add_divInt _ _
    (by exact_mod_cast a.den_nz) (by exact_mod_cast b.den_nz)]
  simp [Rat.num_divInt_den]

theorem qSum_eq_sum (l : List ℚ) : qSum l = l.sum := by
  induction l with
  | nil => rfl
  | cons a t ih => simp [qSum, List.foldr, qAdd_eq_add] at *; simp [ih]

/-- Skip to the character list following the first occurrence of `pat`
(`none` when `pat` does not occur). -/
def afterFirst (pat : List Char) : List Char → Option (List Char)
  | [] => if listStartsWith [] pat then some [] else none
  | l@(_ :: as) =>
    if listStartsWith l pat then some (l.drop pat.length) else afterFirst pat as

/-- The first maximal run of decimal digits in a character list. -/
def firstDigitRun : List Char → Option (List Char)
  | [] => none
  | c :: cs =>
    if c.isDigit then some (c :: cs.takeWhile Char.isDigit) else firstDigitRun cs

/-- `Series.str.extract(pat ++ ".*?(\d+)")`: the first digit run after the
first occurrence of `pat`, as a string (leading zeros preserved). -/
def extractCode (pat : String) (s : String) : Option String :=
  (afterFirst pat.toList s.toList).bind fun rest =>
    (firstDigitRun rest).map String.mk

/-- `re.search(r"iteration(\d+)", s)` followed by `int(...)` on the captured
group: the digits immediately after the first occurrence of `"iteration"`
that is followed by at least one digit. -/
def extractIterAux : List Char → Option Nat
  | [] => none
  | l@(_ :: as) =>
    if listStartsWith l "iteration".toList then
      match l.drop 9 with
      | c :: rest =>
        if c.isDigit then some (digitsVal (c :: rest.takeWhile Char.isDigit))
        else extractIterAux as
      | [] => extractIterAux as
    else extractIterAux as

/-- Iteration number extracted from a CSV file name. -/
def extract_iteration (s : String) : Option Nat := extractIterAux s.toList

/-- `os.path.basename`: the part after the last `/`. -/
def basename (p : String) : String := (pySplit '/' p).getLastD ""

/-- `os.path.basename(csv_file).split('_')[0]` of `create_data_dict`. -/
def barcodeName (p : String) : String := (pySplit '_' (basename p)).headD ""

/-! ## The gene-coverage table and `create_data_dict` (methods.py 314-465) -/

/-- One row of a per-sample gene-coverage CSV: the `gene_name` column and the
raw `number_of_reads_mapped` column (a numeral, possibly with an `X`
suffix). -/
structure Row where
  gene_name : String
  number_of_reads_mapped : String
deriving DecidableEq, Repr

/-- The numeric view of a row's read count after
`str.replace('X', '')` and `pd.to_numeric(..., errors='coerce')`;
`none` models NaN. -/
def rowVal (r : Row) : Option ℚ := parseDecimal (stripX r.number_of_reads_mapped)

/-- The read count a pandas sum contributes for a row (NaN counts as 0). -/
def rowValD (r : Row) : ℚ := (rowVal r).getD 0

/-- Sum of the read counts of a list of rows (NaN-skipping, as pandas). -/
def readsSum (l : List Row) : ℚ := qSum (l.map rowValD)

/-- A heterogeneous Python dictionary value: a string or an `int`. -/
inductive PyVal where
  | str (s : String)
  | int (n : ℤ)
deriving DecidableEq, Repr

/-- Rows whose `gene_name` contains `pat` (case-sensitive), as in
`df[df['gene_name'].str.contains(pat)]`. -/
def rowsContaining (pat : String) (df : List Row) : List Row :=
  df.filter (fun r => strContains r.gene_name pat)

/-- Rows whose `gene_name` contains `pat` case-insensitively. -/
def rowsContainingCI (pat : String) (df : List Row) : List Row :=
  df.filter (fun r => strContainsCI r.gene_name pat)

/-- The antigen code a row contributes to the serotype grouping
(`df['gene_name'].str.extract(pat ++ '.*?(\d+)')`). -/
def seroCode (pat : String) (r : Row) : Option String := extractCode pat r.gene_name

/-- The distinct antigen codes occurring in the table. -/
def seroCodes (pat : String) (df : List Row) : List String :=
  (df.filterMap (seroCode pat)).dedup

/-- Total mapped reads of one antigen-code group
(`df.groupby(...)['number_of_reads_mapped'].sum()`). -/
def seroGroupSum (pat : String) (df : List Row) (c : String) : ℚ :=
  readsSum (df.filter (fun r => decide (seroCode pat r = some c)))

/-- Combined mapped reads of every antigen-code group whose own total
exceeds 1 (the `> 1` filter followed by `.sum()` over the kept groups). -/
def seroKeptSum (pat : String) (df : List Row) : ℚ :=
  qSum (((seroCodes pat df).filter
    (fun c => decide ((1 : ℚ) < seroGroupSum pat df c))).map (seroGroupSum pat df))

/-- The printed antigen label of a serotype gene name:
`gene_name.split('/')[1].split('-')[0]`. -/
def serotypeLabel (name : String) : String :=
  (pySplit '-' ((pySplit '/' name).getD 1 "")).headD ""

/-- The `O-Type`/`H-Type` field: the label of the first row containing the
serotype marker together with the combined kept-group read total, or the
sentinel `"-"`. -/
def seroField (pat : String) (df : List Row) : String :=
  match rowsContaining pat df with
  | [] => "-"
  | r :: _ =>
    if (0 : ℚ) < seroKeptSum pat df then
      serotypeLabel r.gene_name ++ " (" ++ toString (pyTrunc (seroKeptSum pat df)) ++ ")"
    else "-"

/-- The distinct gene names of a list of rows (`groupby('gene_name')`). -/
def geneNames (l : List Row) : List String := (l.map Row.gene_name).dedup

/-- Total mapped reads of one gene-name group within `l`. -/
def nameGroupSum (l : List Row) (n : String) : ℚ :=
  readsSum (l.filter (fun r => decide (r.gene_name = n)))

/-- Combined mapped reads of the gene-name groups (within the rows matching
`pat` case-insensitively) whose totals exceed 1; used for `stx1`/`stx2`. -/
def stxKeptSum (pat : String) (df : List Row) : ℚ :=
  let rows := rowsContainingCI pat df
  qSum (((geneNames rows).filter
    (fun n => decide ((1 : ℚ) < nameGroupSum rows n))).map (nameGroupSum rows))

/-- The `stx1`/`stx2` field: the combined kept-group total as an `int`, or
the sentinel `"-"`. -/
def stxField (pat : String) (df : List Row) : PyVal :=
  match rowsContainingCI pat df with
  | [] => .str "-"
  | _ :: _ =>
    if (0 : ℚ) < stxKeptSum pat df then .int (pyTrunc (stxKeptSum pat df))
    else .str "-"

/-- Rows whose individual read count exceeds 1
(`x[x['number_of_reads_mapped'] > 1]`; NaN rows are dropped). -/
def rowsOverOne (l : List Row) : List Row :=
  l.filter (fun r =>
    match rowVal r with
    | some q => decide ((1 : ℚ) < q)
    | none => false)

/-- Total reads of the rows matching `pat` that individually exceed 1 read;
used for the five virulence markers. -/
def virSum (pat : String) (df : List Row) : ℚ :=
  readsSum (rowsOverOne (rowsContaining pat df))

/-- The `eae`/`hylA`/`aggR`/`aaiC`/`uidA` field: the total as an `int`, or
the sentinel `"-"`. -/
def virField (pat : String) (df : List Row) : PyVal :=
  match rowsContaining pat df with
  | [] => .str "-"
  | _ :: _ =>
    if (0 : ℚ) < virSum pat df then .int (pyTrunc (virSum pat df))
    else .str "-"

/-- The exclusion filter of the GDCS selection:
`str.contains('O/|H/|Stx|eae|ehxA|aggR|aaiC|#', case=False)`. -/
def gdcsExcluded (name : String) : Bool :=
  strContainsCI name "O/" || strContainsCI name "H/" || strContainsCI name "Stx" ||
  strContainsCI name "eae" || strContainsCI name "ehxA" || strContainsCI name "aggR" ||
  strContainsCI name "aaiC" || strContainsCI name "#"

/-- The conserved-marker (GDCS) rows: everything the filter does not
exclude. -/
def gdcsRows (df : List Row) : List Row :=
  df.filter (fun r => !gdcsExcluded r.gene_name)

/-- `len(gdcs_genes_with_reads)`: conserved rows whose read count exceeds
1. -/
def gdcsCount (df : List Row) : Nat := (rowsOverOne (gdcsRows df)).length

/-- The `GDCS` field, `"<count>/325"`. -/
def gdcsField (df : List Row) : String := toString (gdcsCount df) ++ "/325"

/-- The rows whose name contains `genome_coverage`. -/
def covRows (df : List Row) : List Row := rowsContaining "genome_coverage" df

/-- The `Coverage` field: the first coverage row's numeric value rounded to
two decimals, 0 when there is no coverage row; `none` models a NaN
coverage value. -/
def coverageField (df : List Row) : Option ℚ :=
  match covRows df with
  | [] => some (round2 0)
  | r :: _ => (rowVal r).map round2

/-- One entry of the seqid → {OLNID, Barcode} metadata lookup. -/
structure MetaEntry where
  olnid : String
  barcode : String
deriving DecidableEq, Repr

/-- Insertion-ordered dictionary update (`d[k] = v`): replace the binding if
the key exists, else append it. -/
def dictSet {α : Type} : List (String × α) → String → α → List (String × α)
  | [], k, v => [(k, v)]
  | (k', v') :: rest, k, v =>
    if k' = k then (k', v) :: rest else (k', v') :: dictSet rest k v

/-- Dictionary lookup (`d[k]`, `none` modelling a `KeyError`). -/
def dictFind {α : Type} : List (String × α) → String → Option α
  | [], _ => none
  | (k', v) :: rest, k => if k' = k then some v else dictFind rest k

/-- The derived per-sample report record produced by `create_data_dict`. -/
structure SampleRecord where
  seqid : String
  olnid : String
  oType : String
  hType : String
  stx1 : PyVal
  stx2 : PyVal
  eae : PyVal
  hylA : PyVal
  aggR : PyVal
  aaiC : PyVal
  uidA : PyVal
  gdcs : String
  coverage : Option ℚ
deriving DecidableEq, Repr

/-- `create_data_dict(df, csv_file, metadata_dict)` (methods.py 314-465):
derive the report record of one per-sample table.  `none` models the
`KeyError` raised when the file's SEQID is missing from the metadata. -/
def create_data_dict (df : List Row) (csv_file : String)
    (metadata_dict : List (String × MetaEntry)) : Option SampleRecord :=
  match dictFind metadata_dict (barcodeName csv_file) with
  | none => none
  | some entry => some
    { seqid := barcodeName csv_file
      olnid := entry.olnid
      oType := seroField "O/" df
      hType := seroField "H/" df
      stx1 := stxField "Stx1" df
      stx2 := stxField "Stx2" df
      eae := virField "eae" df
      hylA := virField "ehxA" df
      aggR := virField "aggR" df
      aaiC := virField "aaiC" df
      uidA := virField "uidA" df
      gdcs := gdcsField df
      coverage := coverageField df }

/-! ## `get_sorted_barcode_values` (methods.py 150-180) -/

/-- Key order for Python's stable `sorted(..., key=lambda x: int(x))`. -/
def intKeyLe : (ℤ × String) → (ℤ × String) → Prop := fun a b => a.1 ≤ b.1

instance : DecidableRel intKeyLe := fun a b => inferInstanceAs (Decidable (a.1 ≤ b.1))

instance : IsTotal (ℤ × String) intKeyLe := ⟨fun a b => Int.le_total a.1 b.1⟩

instance : IsTrans (ℤ × String) intKeyLe := ⟨fun _ _ _ h h' => le_trans h h'⟩

/-- Pair every piece with its `int` sort key (`none` when some piece does
not parse, modelling the `ValueError` raised by `int(x)`). -/
def keyedPieces : List String → Option (List (ℤ × String))
  | [] => some []
  | x :: xs =>
    match pyIntOfString x, keyedPieces xs with
    | some n, some ys => some ((n, x) :: ys)
    | _, _ => none

/-- `get_sorted_barcode_values(data_dict)` (methods.py 150-180): the
`barcode_values` entry (absent modelled as `none`) is split on commas,
sorted by integer value (Python's `sorted` is a stable sort, modelled by a
stable insertion sort) and zero-filled to width 2. -/
def get_sorted_barcode_values (barcode_values : Option String) : Option (List String) :=
  let s := barcode_values.getD ""
  if s = "" then some []
  else
    match keyedPieces (pySplit ',' s) with
    | none => none
    | some keyed => some ((keyed.insertionSort intKeyLe).map (fun p => zfill 2 p.2))

/-! ## Metadata loading and SEQID validation (methods.py 697-709,
main.py 1075-1145) -/

/-- One row of the metadata CSV (`Barcode, SEQID, OLNID`). -/
structure MetaRow where
  barcode : String
  seqid : String
  olnid : String
deriving DecidableEq, Repr

/-- The metadata loader of `main` (methods.py 700-709): populate
`link_dict[row['SEQID']] = {'OLNID': ..., 'Barcode': ...}` row by row.
There is no duplicate check: a repeated SEQID silently overwrites the
earlier binding. -/
def loadLinkDict (rows : List MetaRow) : List (String × MetaEntry) :=
  rows.foldl (fun d row => dictSet d row.seqid ⟨row.olnid, row.barcode⟩) []

/-- `^\d{4}-MIN-\d{4}$` of `validate_seqid_entries`. -/
def seqidMatch (s : String) : Bool :=
  match s.toList with
  | [a, b, c, d, e, f, g, h, i, j, k, l, m] =>
    a.isDigit && b.isDigit && c.isDigit && d.isDigit &&
    (e == '-') && (f == 'M') && (g == 'I') && (h == 'N') && (i == '-') &&
    j.isDigit && k.isDigit && l.isDigit && m.isDigit
  | _ => false

/-- One row of the GUI metadata table (barcode, SEQID, OLNID cells). -/
structure TableRow where
  barcode : String
  seqid : String
  olnid : String
deriving DecidableEq, Repr

/-- One accepted entry of `self.sequence_info`. -/
structure SeqInfo where
  barcode : String
  seqid : String
  olnid : String
deriving DecidableEq, Repr

/-- State threaded through the row loop of `validate_seqid_entries`. -/
structure ValState where
  seqidToBarcodes : List (String × List String)
  invalidMessages : List String
  sequenceInfo : List SeqInfo
deriving DecidableEq, Repr

/-- `seqid_to_barcodes[seqid].append(barcode)` for an existing key. -/
def assocAppend : List (String × List String) → String → String → List (String × List String)
  | [], k, b => [(k, [b])]
  | (k', bs) :: rest, k, b =>
    if k' = k then (k', bs ++ [b]) :: rest else (k', bs) :: assocAppend rest k b

/-- Whether a key is present (`seqid in seqid_to_barcodes`). -/
def assocHas (d : List (String × List String)) (k : String) : Bool :=
  d.any (fun p => p.1 == k)

/-- The body of the row loop of `validate_seqid_entries`
(main.py 1104-1124). -/
def valStep (st : ValState) (row : TableRow) : ValState :=
  let seqid := rstrip row.seqid
  let barcode := rstrip row.barcode
  let olnid := rstrip row.olnid
  if seqid = "" then
    { st with invalidMessages :=
        st.invalidMessages ++ ["SEQID for barcode '" ++ barcode ++ "' is missing."] }
  else if !seqidMatch seqid then
    { st with invalidMessages :=
        st.invalidMessages ++
          ["SEQID '" ++ seqid ++ "' for barcode '" ++ barcode ++ "' is invalid."] }
  else if assocHas st.seqidToBarcodes seqid then
    { st with seqidToBarcodes := assocAppend st.seqidToBarcodes seqid barcode }
  else
    { st with
        seqidToBarcodes := st.seqidToBarcodes ++ [(seqid, [barcode])],
        sequenceInfo := st.sequenceInfo ++ [⟨barcode, seqid, olnid⟩] }

/-- The seqid → barcodes grouping accumulated over all table rows. -/
def seqidGroups (rows : List TableRow) : List (String × List String) :=
  (rows.foldl valStep ⟨[], [], []⟩).seqidToBarcodes

/-- The duplicate message emitted for a SEQID seen under several barcodes. -/
def notUniqueMsg (seqid : String) (barcodes : List String) : String :=
  "SEQID '" ++ seqid ++ "' is not unique, found in barcodes: " ++
    String.intercalate ", " barcodes ++ "."

/-- `validate_seqid_entries` (main.py 1075-1145): the accumulated messages,
the accepted `sequence_info` entries and the boolean result (`true` when
every entry is valid and unique). -/
def validate_seqid_entries (rows : List TableRow) : List String × List SeqInfo × Bool :=
  let st := rows.foldl valStep ⟨[], [], []⟩
  let msgs := st.invalidMessages ++
    (st.seqidToBarcodes.filter (fun p => decide (1 < p.2.length))).map
      (fun p => notUniqueMsg p.1 p.2)
  (msgs, st.sequenceInfo, msgs.isEmpty)

/-! ## The polling loop (methods.py 770-897): iteration grouping,
readiness gating, the processed ledger and rendering -/

/-- Observable actions of one poll cycle.  A record is identified by the
CSV file it was extracted from (`append` = `all_data.append(data_dict)`,
`render` = `visualize_data` with the current table, `pdf` =
`create_pdf_report` for the iteration, `move` = `shutil.move` into the
processed folder). -/
inductive Ev where
  | append (iter : Nat) (file : String)
  | render (iter : Nat) (table : List String)
  | pdf (iter : Nat)
  | move (file : String)
deriving DecidableEq, Repr

/-- State threaded through one poll cycle: the produced events, the ledger
of processed basenames, the running `all_data` collection and
`current_iteration`. -/
structure CycleState where
  events : List Ev
  processed : List String
  allData : List String
  currentIter : Option Nat
deriving DecidableEq, Repr

/-- Processing of one CSV file inside an iteration (methods.py 838-867):
skip it when its basename is in the processed ledger, otherwise append its
record, re-render the table and move the file into the ledger. -/
def processFile (i : Nat) (st : CycleState) (f : String) : CycleState :=
  if f ∈ st.processed then st
  else
    { events := st.events ++ [.append i f, .render i (st.allData ++ [f]), .move f]
      processed := st.processed ++ [f]
      allData := st.allData ++ [f]
      currentIter := st.currentIter }

/-- Lexicographic order used by Python's `sorted` on file names. -/
def strLe : String → String → Prop := fun a b => a ≤ b

instance : DecidableRel strLe := fun a b => inferInstanceAs (Decidable (a ≤ b))

instance : IsTotal String strLe := ⟨fun a b => le_total a b⟩

instance : IsTrans String strLe := ⟨fun _ _ _ h h' => le_trans h h'⟩

/-- The files of one iteration currently visible in the results folder. -/
def iterFiles (files : List String) (i : Nat) : List String :=
  files.filter (fun f => decide (extract_iteration f = some i))

/-- Processing of one iteration (methods.py 802-880): skip it when fewer
files than configured barcodes are present; otherwise reset `all_data` on
an iteration change, process the files in sorted order, produce the PDF
report and advance `current_iteration`. -/
def processIteration (numBarcodes : Nat) (files : List String)
    (st : CycleState) (i : Nat) : CycleState :=
  let fs := iterFiles files i
  if fs.length < numBarcodes then st
  else
    let st1 : CycleState :=
      if st.currentIter = some i then st else { st with allData := [] }
    let st2 := (fs.insertionSort strLe).foldl (processFile i) st1
    { st2 with events := st2.events ++ [.pdf i], currentIter := some i }

/-- Ascending order on iteration numbers. -/
def natLe : Nat → Nat → Prop := fun a b => a ≤ b

instance : DecidableRel natLe := fun a b => inferInstanceAs (Decidable (a ≤ b))

instance : IsTotal Nat natLe := ⟨fun a b => Nat.le_total a b⟩

instance : IsTrans Nat natLe := ⟨fun _ _ _ h h' => le_trans h h'⟩

/-- `sorted(csv_files_by_iteration.keys())`: the distinct iteration numbers
of the visible files, ascending. -/
def sortedIterations (files : List String) : List Nat :=
  ((files.filterMap extract_iteration).dedup).insertionSort natLe

/-- One poll cycle of the loop (methods.py 784-880): group the visible CSV
files by iteration and process the iterations in ascending order. -/
def runCycle (numBarcodes : Nat) (processed files : List String) : CycleState :=
  (sortedIterations files).foldl (processIteration numBarcodes files)
    ⟨[], processed, [], none⟩

/-- The files still visible after a cycle (the moved ones are gone). -/
def remainingFiles (files : List String) (st : CycleState) : List String :=
  files.filter (fun f => decide (Ev.move f ∉ st.events))

/-- A whole run of poll cycles: before each cycle the worker may have
written new files. -/
def runPolls (numBarcodes : Nat) (batches : List (List String)) :
    List Ev × List String × List String :=
  batches.foldl
    (fun acc batch =>
      let files := acc.2.2 ++ batch
      let st := runCycle numBarcodes acc.2.1 files
      (acc.1 ++ st.events, st.processed, remainingFiles files st))
    ([], [], [])

/-- The iteration an event belongs to (a `move` is tagged by the iteration
number in the moved file's name). -/
def evTag : Ev → Option Nat
  | .append i _ => some i
  | .render i _ => some i
  | .pdf i => some i
  | .move f => extract_iteration f

/-! ## The worker-process supervision (methods.py 744-897) -/

/-- What the loop observes during one poll cycle: the shared cancellation
flag, `worker_process.poll()` at the top-of-cycle check (line 781) and at
the per-iteration check (line 883), and the files newly written since the
previous cycle. -/
structure CycleObs where
  complete : Bool
  pollTop : Option ℤ
  pollLate : Option ℤ
  newFiles : List String
deriving DecidableEq, Repr

/-- Supervision actions: terminating the worker, joining both output-reader
threads, raising the failure. -/
inductive SEv where
  | terminate
  | joinReaders
  | raised (msg : String)
deriving DecidableEq, Repr

/-- How the polling loop ended. -/
inductive Outcome where
  | cancelled
  | exitedSilently (rc : ℤ)
  | failed (rc : ℤ) (msg : String)
  | finishedClean
  | stillRunning
deriving DecidableEq, Repr

/-- The `RuntimeError` message built from the captured stderr lines
(methods.py 890-896). -/
def errMsg (stderrCapture : List String) : String :=
  "Subprocess failed with error: " ++
    (if stderrCapture.isEmpty then "An unknown error occurred"
     else String.intercalate "\n" stderrCapture)

/-- Whether the cycle has at least one ready iteration (so the per-iteration
worker check of line 883 is reached). -/
def anyReady (numBarcodes : Nat) (files : List String) : Bool :=
  (sortedIterations files).any (fun i => numBarcodes ≤ (iterFiles files i).length)

/-- Supervisor state: emitted supervision actions plus the ledger and the
visible files. -/
structure SupState where
  sevents : List SEv
  processed : List String
  files : List String
deriving DecidableEq, Repr

/-- The polling loop of `main` (methods.py 770-897) at cycle granularity.
Each cycle: check the cancellation flag (line 776), then the worker
liveness (line 781, a bare `break`), then scan and process; when the worker
is observed exited at the per-iteration check (line 883) the reader threads
are joined and a non-zero code raises `RuntimeError` with the captured
stderr.  `stderrCapture` is the text the stderr reader has captured by join
time. -/
def superviseLoop (numBarcodes : Nat) (stderrCapture : List String) :
    List CycleObs → SupState → SupState × Outcome
  | [], st => (st, .stillRunning)
  | obs :: rest, st =>
    if obs.complete then
      ({ st with sevents := st.sevents ++ [.terminate] }, .cancelled)
    else
      match obs.pollTop with
      | some rc => (st, .exitedSilently rc)
      | none =>
        let files := st.files ++ obs.newFiles
        match obs.pollLate with
        | some rc =>
          if anyReady numBarcodes files then
            if rc = 0 then
              ({ st with sevents := st.sevents ++ [.joinReaders], files := files },
               .finishedClean)
            else
              ({ st with
                  sevents := st.sevents ++ [.joinReaders, .raised (errMsg stderrCapture)],
                  files := files },
               .failed rc (errMsg stderrCapture))
          else
            let c := runCycle numBarcodes st.processed files
            superviseLoop numBarcodes stderrCapture rest
              ⟨st.sevents, c.processed, remainingFiles files c⟩
        | none =>
          let c := runCycle numBarcodes st.processed files
          superviseLoop numBarcodes stderrCapture rest
            ⟨st.sevents, c.processed, remainingFiles files c⟩

/-! ## Helper lemmas about read sums -/

theorem readsSum_eq (l : List Row) : readsSum l = (l.map rowValD).sum := by
  unfold readsSum; exact qSum_eq_sum _

theorem readsSum_sublist_le {l₁ l₂ : List Row} (h : l₁.Sublist l₂)
    (hnn : ∀ r ∈ l₂, 0 ≤ rowValD r) : readsSum l₁ ≤ readsSum l₂ := by
  rw [readsSum_eq, readsSum_eq]
  refine (h.map rowValD).sum_le_sum ?_
  intro a ha
  obtain ⟨r, hr, rfl⟩ := List.mem_map.mp ha
  exact hnn r hr

theorem rowValD_le_readsSum {r : Row} {l : List Row} (hr : r ∈ l)
    (hnn : ∀ x ∈ l, 0 ≤ rowValD x) : rowValD r ≤ readsSum l := by
  have h : [r].Sublist l := List.singleton_sublist.mpr hr
  have := readsSum_sublist_le h hnn
  simpa [readsSum_eq] using this

theorem afterFirst_contains {pat : List Char} :
    ∀ {l rest : List Char}, afterFirst pat l = some rest → listContainsSub l pat = true := by
  intro l
  induction l with
  | nil =>
    intro rest h
    unfold afterFirst at h
    by_cases hs : listStartsWith [] pat = true
    · cases pat with
      | nil => simp [listContainsSub, List.isEmpty]
      | cons c cs => simp [listStartsWith] at hs
    · simp [hs] at h
  | cons x xs ih =>
    intro rest h
    unfold afterFirst at h
    by_cases hs : listStartsWith (x :: xs) pat = true
    · simp [listContainsSub, hs]
    · simp only [hs, if_false, Bool.false_eq_true] at h
      simp [listContainsSub, ih h]

theorem seroCode_contains {pat : String} {r : Row} {c : String}
    (h : seroCode pat r = some c) : strContains r.gene_name pat = true := by
  unfold seroCode extractCode at h
  cases hafter : afterFirst pat.toList r.gene_name.toList with
  | none => rw [hafter] at h; simp at h
  | some rest => exact afterFirst_contains hafter

theorem seroGroupSum_le {pat : String} {df : List Row} {c : String}
    (hnn : ∀ r ∈ df, 0 ≤ rowValD r) :
    seroGroupSum pat df c ≤ readsSum (rowsContaining pat df) := by
  unfold seroGroupSum rowsContaining
  refine readsSum_sublist_le (List.monotone_filter_right df ?_) ?_
  · intro r hr
    exact seroCode_contains (of_decide_eq_true hr)
  · intro r hr
    exact hnn r (List.mem_filter.mp hr).1

theorem seroKeptSum_eq_zero {pat : String} {df : List Row}
    (h : ∀ c ∈ seroCodes pat df, seroGroupSum pat df c ≤ 1) :
    seroKeptSum pat df = 0 := by
  unfold seroKeptSum
  have : (seroCodes pat df).filter
      (fun c => decide ((1 : ℚ) < seroGroupSum pat df c)) = [] := by
    rw [List.filter_eq_nil_iff]
    intro c hc
    simp only [decide_eq_true_eq, not_lt]
    exact h c hc
  rw [this]; rfl

theorem seroField_sentinel {pat : String} {df : List Row}
    (hnn : ∀ r ∈ df, 0 ≤ rowValD r)
    (hle : readsSum (rowsContaining pat df) ≤ 1) :
    seroField pat df = "-" := by
  have hz : seroKeptSum pat df = 0 :=
    seroKeptSum_eq_zero (fun c _ => le_trans (seroGroupSum_le hnn) hle)
  unfold seroField
  cases hrows : rowsContaining pat df with
  | nil => rfl
  | cons r rest => simp [hz]

theorem nameGroupSum_le {df : List Row} {pat n : String}
    (hnn : ∀ r ∈ df, 0 ≤ rowValD r) :
    nameGroupSum (rowsContainingCI pat df) n ≤ readsSum (rowsContainingCI pat df) := by
  unfold nameGroupSum
  refine readsSum_sublist_le (List.filter_sublist _) ?_
  intro r hr
  exact hnn r (List.mem_filter.mp hr).1

theorem stxKeptSum_eq_zero {pat : String} {df : List Row}
    (hnn : ∀ r ∈ df, 0 ≤ rowValD r)
    (hle : readsSum (rowsContainingCI pat df) ≤ 1) :
    stxKeptSum pat df = 0 := by
  unfold stxKeptSum
  have : (geneNames (rowsContainingCI pat df)).filter
      (fun n => decide ((1 : ℚ) < nameGroupSum (rowsContainingCI pat df) n)) = [] := by
    rw [List.filter_eq_nil_iff]
    intro n _
    simp only [decide_eq_true_eq, not_lt]
    exact le_trans (nameGroupSum_le hnn) hle
  simp only [this]; rfl

theorem stxField_sentinel {pat : String} {df : List Row}
    (hnn : ∀ r ∈ df, 0 ≤ rowValD r)
    (hle : readsSum (rowsContainingCI pat df) ≤ 1) :
    stxField pat df = .str "-" := by
  have hz := stxKeptSum_eq_zero hnn hle
  unfold stxField
  cases hrows : rowsContainingCI pat df with
  | nil => rfl
  | cons r rest => simp [hz]

theorem rowsOverOne_nil {pat : String} {df : List Row}
    (hnn : ∀ r ∈ df, 0 ≤ rowValD r)
    (hle : readsSum (rowsContaining pat df) ≤ 1) :
    rowsOverOne (rowsContaining pat df) = [] := by
  unfold rowsOverOne
  rw [List.filter_eq_nil_iff]
  intro r hr hmatch
  cases hv : rowVal r with
  | none => rw [hv] at hmatch; simp at hmatch
  | some q =>
    rw [hv] at hmatch
    have hq : (1 : ℚ) < q := of_decide_eq_true hmatch
    have hd : rowValD r = q := by simp [rowValD, hv]
    have hmem : ∀ x ∈ rowsContaining pat df, 0 ≤ rowValD x := by
      intro x hx
      exact hnn x (List.mem_filter.mp hx).1
    have := rowValD_le_readsSum hr hmem
    rw [hd] at this
    exact absurd (le_trans this hle) (not_le.mpr hq)

theorem virField_sentinel {pat : String} {df : List Row}
    (hnn : ∀ r ∈ df, 0 ≤ rowValD r)
    (hle : readsSum (rowsContaining pat df) ≤ 1) :
    virField pat df = .str "-" := by
  have hz : virSum pat df = 0 := by
    unfold virSum
    rw [rowsOverOne_nil hnn hle]; rfl
  unfold virField
  cases hrows : rowsContaining pat df with
  | nil => rfl
  | cons r rest => simp [hz]

theorem create_data_dict_fields {df : List Row} {csv_file : String}
    {md : List (String × MetaEntry)} {rec : SampleRecord}
    (hrec : create_data_dict df csv_file md = some rec) :
    rec.oType = seroField "O/" df ∧ rec.hType = seroField "H/" df ∧
    rec.stx1 = stxField "Stx1" df ∧ rec.stx2 = stxField "Stx2" df ∧
    rec.eae = virField "eae" df ∧ rec.hylA = virField "ehxA" df ∧
    rec.aggR = virField "aggR" df ∧ rec.aaiC = virField "aaiC" df ∧
    rec.uidA = virField "uidA" df ∧ rec.gdcs = gdcsField df ∧
    rec.coverage = coverageField df := by
  unfold create_data_dict at hrec
  cases hfind : dictFind md (barcodeName csv_file) with
  | none => rw [hfind] at hrec; simp at hrec
  | some entry =>
    rw [hfind] at hrec
    cases hrec
    exact ⟨rfl, rfl, rfl, rfl, rfl, rfl, rfl, rfl, rfl, rfl, rfl⟩

/-! ## C1: the threshold sentinel law -/

/-- C1: for every per-sample gene-coverage table (with non-negative read
counts) and every gene group — serotype O, serotype H, stx1, stx2, eae,
ehxA/hylA, aggR, aaiC, uidA — whose total mapped-read support is at most 1,
the corresponding field of the SampleRecord produced by `create_data_dict`
equals the sentinel string `"-"`, never a numeric value. -/
theorem c1_threshold_sentinel (df : List Row) (csv_file : String)
    (md : List (String × MetaEntry)) (rec : SampleRecord)
    (hrec : create_data_dict df csv_file md = some rec)
    (hnn : ∀ r ∈ df, 0 ≤ rowValD r) :
    (readsSum (rowsContaining "O/" df) ≤ 1 → rec.oType = "-") ∧
    (readsSum (rowsContaining "H/" df) ≤ 1 → rec.hType = "-") ∧
    (readsSum (rowsContainingCI "Stx1" df) ≤ 1 → rec.stx1 = PyVal.str "-") ∧
    (readsSum (rowsContainingCI "Stx2" df) ≤ 1 → rec.stx2 = PyVal.str "-") ∧
    (readsSum (rowsContaining "eae" df) ≤ 1 → rec.eae = PyVal.str "-") ∧
    (readsSum (rowsContaining "ehxA" df) ≤ 1 → rec.hylA = PyVal.str "-") ∧
    (readsSum (rowsContaining "aggR" df) ≤ 1 → rec.aggR = PyVal.str "-") ∧
    (readsSum (rowsContaining "aaiC" df) ≤ 1 → rec.aaiC = PyVal.str "-") ∧
    (readsSum (rowsContaining "uidA" df) ≤ 1 → rec.uidA = PyVal.str "-") := by
  obtain ⟨ho, hh, hs1, hs2, he, hx, hg, ha, hu, -, -⟩ := create_data_dict_fields hrec
  refine ⟨fun h => ?_, fun h => ?_, fun h => ?_, fun h => ?_, fun h => ?_,
    fun h => ?_, fun h => ?_, fun h => ?_, fun h => ?_⟩
  · rw [ho]; exact seroField_sentinel hnn h
  · rw [hh]; exact seroField_sentinel hnn h
  · rw [hs1]; exact stxField_sentinel hnn h
  · rw [hs2]; exact stxField_sentinel hnn h
  · rw [he]; exact virField_sentinel hnn h
  · rw [hx]; exact virField_sentinel hnn h
  · rw [hg]; exact virField_sentinel hnn h
  · rw [ha]; exact virField_sentinel hnn h
  · rw [hu]; exact virField_sentinel hnn h

/-- A concrete table for the C1 witness: every gene group has total support
at most one read. -/
def c1Table : List Row :=
  [⟨"O/O26-wzx", "1X"⟩, ⟨"H/H11-fliC", "1X"⟩, ⟨"Stx1A", "1"⟩, ⟨"eae_1", "1"⟩,
   ⟨"uidA", "1"⟩]

/-- Metadata shared by the concrete witness tables. -/
def sampleMeta : List (String × MetaEntry) := [("b01", ⟨"OLN-1", "01"⟩)]

/-- The record `create_data_dict` produces on `c1Table`. -/
def c1Rec : SampleRecord :=
  { seqid := "b01", olnid := "OLN-1", oType := "-", hType := "-",
    stx1 := .str "-", stx2 := .str "-", eae := .str "-", hylA := .str "-",
    aggR := .str "-", aaiC := .str "-", uidA := .str "-", gdcs := "0/325",
    coverage := some 0 }

theorem c1_threshold_sentinel_witness :
    create_data_dict c1Table "b01_iteration1.csv" sampleMeta = some c1Rec ∧
    c1Rec.oType = "-" ∧ c1Rec.hType = "-" ∧ c1Rec.stx1 = PyVal.str "-" ∧
    c1Rec.eae = PyVal.str "-" ∧ c1Rec.uidA = PyVal.str "-" := by
  have h := c1_threshold_sentinel c1Table "b01_iteration1.csv" sampleMeta c1Rec
    (by decide) (by decide)
  exact ⟨by decide, h.1 (by decide), h.2.1 (by decide), h.2.2.1 (by decide),
    h.2.2.2.2.1 (by decide), h.2.2.2.2.2.2.2.2 (by decide)⟩

/-! ## C2: serotype extraction -/

theorem sum_map_indicator (c₀ : String) (v : ℚ) :
    ∀ cs : List String, cs.Nodup →
      (cs.map (fun c => if c₀ = c then v else 0)).sum = if c₀ ∈ cs then v else 0 := by
  intro cs
  induction cs with
  | nil => intro _; simp
  | cons c cs ih =>
    intro hnd
    have hnd' := List.nodup_cons.mp hnd
    rw [List.map_cons, List.sum_cons, ih hnd'.2]
    by_cases h : c₀ = c
    · subst h; simp [hnd'.1]
    · simp [h, List.mem_cons]

theorem seroGroupSum_cons (pat : String) (r : Row) (l : List Row) (c : String) :
    seroGroupSum pat (r :: l) c =
      (if seroCode pat r = some c then rowValD r else 0) + seroGroupSum pat l c := by
  unfold seroGroupSum
  rw [List.filter_cons]
  by_cases h : seroCode pat r = some c
  · simp [h, readsSum_eq]
  · simp [h, readsSum_eq]

theorem sum_seroGroupSum_eq (pat : String) (cs : List String) (hnd : cs.Nodup) :
    ∀ l : List Row,
      (cs.map (fun c => seroGroupSum pat l c)).sum =
        readsSum (l.filter (fun r =>
          match seroCode pat r with
          | some c => decide (c ∈ cs)
          | none => false)) := by
  intro l
  induction l with
  | nil =>
    rw [readsSum_eq]
    simp only [List.filter_nil, List.map_nil, List.sum_nil]
    apply List.sum_eq_zero
    intro x hx
    obtain ⟨c, _, rfl⟩ := List.mem_map.mp hx
    rfl
  | cons r t ih =>
    have ih' : (List.map (seroGroupSum pat t) cs).sum =
        readsSum (List.filter (fun r =>
          match seroCode pat r with
          | some c => decide (c ∈ cs)
          | none => false) t) := ih
    have hdecomp : (cs.map (fun c => seroGroupSum pat (r :: t) c)).sum =
        (cs.map (fun c =>
          (if seroCode pat r = some c then rowValD r else 0) + seroGroupSum pat t c)).sum := by
      congr 1
      apply List.map_congr_left
      intro c _
      exact seroGroupSum_cons pat r t c
    rw [hdecomp, List.sum_map_add, List.filter_cons]
    cases hc : seroCode pat r with
    | none =>
      have hz : (cs.map (fun c => if (none : Option String) = some c then rowValD r else 0)).sum
          = 0 := by
        apply List.sum_eq_zero
        intro x hx
        obtain ⟨c, _, rfl⟩ := List.mem_map.mp hx
        simp
      rw [hz, zero_add, ih']
      simp
    | some c₀ =>
      have hind : (cs.map (fun c => if some c₀ = some c then rowValD r else 0)).sum
          = if c₀ ∈ cs then rowValD r else 0 := by
        have heq : (fun c : String => if some c₀ = some c then rowValD r else 0)
            = (fun c : String => if c₀ = c then rowValD r else 0) := by
          funext c; simp
        rw [heq]
        exact sum_map_indicator c₀ (rowValD r) cs hnd
      rw [hind]
      by_cases hmem : c₀ ∈ cs
      · rw [if_pos hmem, if_pos (by simp [hmem])]
        rw [readsSum_eq, List.map_cons, List.sum_cons, ← readsSum_eq, ih']
      · rw [if_neg hmem, zero_add, if_neg (by simp [hmem]), ih']

/-- The specification's row-wise reading of the kept serotype total: the sum
of mapped reads over all rows whose antigen-code group total exceeds the
minimum-read threshold. -/
def seroKeptRowSum (pat : String) (df : List Row) : ℚ :=
  readsSum (df.filter (fun r =>
    match seroCode pat r with
    | some c => decide ((1 : ℚ) < seroGroupSum pat df c)
    | none => false))

theorem seroKeptSum_eq_rowSum (pat : String) (df : List Row) :
    seroKeptSum pat df = seroKeptRowSum pat df := by
  unfold seroKeptSum seroKeptRowSum
  rw [qSum_eq_sum]
  have h : (List.map (seroGroupSum pat df)
      ((seroCodes pat df).filter (fun c => decide ((1 : ℚ) < seroGroupSum pat df c)))).sum =
      readsSum (List.filter (fun r =>
        match seroCode pat r with
        | some c => decide (c ∈ (seroCodes pat df).filter
            (fun c => decide ((1 : ℚ) < seroGroupSum pat df c)))
        | none => false) df) :=
    sum_seroGroupSum_eq pat _ ((List.nodup_dedup _).filter _) df
  rw [h]
  congr 1
  apply List.filter_congr
  intro r hr
  cases hc : seroCode pat r with
  | none => simp [hc]
  | some c₀ =>
    have hcodes : c₀ ∈ seroCodes pat df :=
      List.mem_dedup.mpr (List.mem_filterMap.mpr ⟨r, hr, hc⟩)
    simp only [hc]
    rw [decide_eq_decide]
    constructor
    · intro h
      exact of_decide_eq_true (List.mem_filter.mp h).2
    · intro h
      exact List.mem_filter.mpr ⟨hcodes, decide_eq_true h⟩

theorem seroField_of_rows {pat : String} {df : List Row} {r : Row} {rest : List Row}
    (h : rowsContaining pat df = r :: rest) :
    ((0 : ℚ) < seroKeptSum pat df →
      seroField pat df =
        serotypeLabel r.gene_name ++ " (" ++ toString (pyTrunc (seroKeptSum pat df)) ++ ")") ∧
    (seroKeptSum pat df ≤ 0 → seroField pat df = "-") := by
  constructor
  · intro hpos
    unfold seroField
    rw [h]
    simp only [if_pos hpos]
  · intro hle
    unfold seroField
    rw [h]
    simp only [if_neg (not_lt.mpr hle)]

/-- The table refuting C2 as stated: the first serotype row's code `111` has
total support 1 (below the threshold), code `222` has total support 5. -/
def c2Table : List Row := [⟨"O/111-wzx", "1"⟩, ⟨"O/222-wzy", "5"⟩]

/-- C2 counterexample: on `c2Table` the only antigen code whose group total
exceeds the threshold is `222` (total 5), so the claim requires the O-Type
field `"222 (5)"`; the code produces `"111 (5)"` — the displayed code is
taken from the first `O/` row, not from the best-supported kept group. -/
theorem c2_serotype_counterexample :
    (create_data_dict c2Table "b01_iteration1.csv" sampleMeta).map SampleRecord.oType
      = some "111 (5)" ∧
    seroGroupSum "O/" c2Table "111" = 1 ∧
    seroGroupSum "O/" c2Table "222" = 5 ∧
    (create_data_dict c2Table "b01_iteration1.csv" sampleMeta).map SampleRecord.oType
      ≠ some "222 (5)" := by
  exact ⟨by decide, by decide, by decide, by decide⟩

/-- C2 (amended): for each serotype group the code sums mapped reads across
all rows sharing the same extracted numeric antigen code and keeps the
groups whose totals exceed the minimum-read threshold; the O-Type/H-Type
field is formatted as `"<label> (<read_total>)"` where `<read_total>` is
the combined total of all kept groups (equal to the row-wise sum over rows
in kept groups) and `<label>` is taken from the first serotype row's gene
name (the text between the first `/` and the following `-`), not from the
best-supported group; the field is the sentinel when there is no serotype
row or the kept total is not positive. -/
theorem c2_serotype_amended (df : List Row) (csv_file : String)
    (md : List (String × MetaEntry)) (rec : SampleRecord)
    (hrec : create_data_dict df csv_file md = some rec) :
    seroKeptSum "O/" df = seroKeptRowSum "O/" df ∧
    seroKeptSum "H/" df = seroKeptRowSum "H/" df ∧
    (rowsContaining "O/" df = [] → rec.oType = "-") ∧
    (rowsContaining "H/" df = [] → rec.hType = "-") ∧
    (∀ r rest, rowsContaining "O/" df = r :: rest →
      ((0 : ℚ) < seroKeptSum "O/" df →
        rec.oType =
          serotypeLabel r.gene_name ++ " (" ++ toString (pyTrunc (seroKeptSum "O/" df)) ++ ")") ∧
      (seroKeptSum "O/" df ≤ 0 → rec.oType = "-")) ∧
    (∀ r rest, rowsContaining "H/" df = r :: rest →
      ((0 : ℚ) < seroKeptSum "H/" df →
        rec.hType =
          serotypeLabel r.gene_name ++ " (" ++ toString (pyTrunc (seroKeptSum "H/" df)) ++ ")") ∧
      (seroKeptSum "H/" df ≤ 0 → rec.hType = "-")) := by
  obtain ⟨ho, hh, -, -, -, -, -, -, -, -, -⟩ := create_data_dict_fields hrec
  refine ⟨seroKeptSum_eq_rowSum _ _, seroKeptSum_eq_rowSum _ _, ?_, ?_, ?_, ?_⟩
  · intro hnil
    rw [ho]; unfold seroField; rw [hnil]
  · intro hnil
    rw [hh]; unfold seroField; rw [hnil]
  · intro r rest hr
    rw [ho]
    exact seroField_of_rows hr
  · intro r rest hr
    rw [hh]
    exact seroField_of_rows hr

/-- The record `create_data_dict` produces on `c2Table`. -/
def c2Rec : SampleRecord :=
  { seqid := "b01", olnid := "OLN-1", oType := "111 (5)", hType := "-",
    stx1 := .str "-", stx2 := .str "-", eae := .str "-", hylA := .str "-",
    aggR := .str "-", aaiC := .str "-", uidA := .str "-", gdcs := "0/325",
    coverage := some 0 }

theorem c2_serotype_amended_witness :
    create_data_dict c2Table "b01_iteration1.csv" sampleMeta = some c2Rec ∧
    seroKeptSum "O/" c2Table = seroKeptRowSum "O/" c2Table ∧
    c2Rec.oType =
      serotypeLabel "O/111-wzx" ++ " (" ++ toString (pyTrunc (seroKeptSum "O/" c2Table)) ++ ")" := by
  have h := c2_serotype_amended c2Table "b01_iteration1.csv" sampleMeta c2Rec (by decide)
  refine ⟨by decide, h.1, ?_⟩
  exact (h.2.2.2.2.1 ⟨"O/111-wzx", "1"⟩ [⟨"O/222-wzy", "5"⟩] (by decide)).1 (by decide)

/-! ## C7: coverage extraction -/

theorem stripX_eq_stripTrailingX (s : String)
    (h : 'X' ∉ (stripTrailingX s).toList) : stripX s = stripTrailingX s := by
  unfold stripTrailingX at *
  by_cases hlast : s.toList.getLast? = some 'X'
  · rw [if_pos hlast] at h ⊢
    have hne : s.toList ≠ [] := by
      intro hnil; rw [hnil] at hlast; simp at hlast
    have hx : s.toList.getLast hne = 'X' := by
      have := List.getLast?_eq_getLast s.toList hne
      rw [hlast] at this
      exact (Option.some.inj this).symm
    have hdecomp : s.toList = s.toList.dropLast ++ ['X'] := by
      conv_lhs => rw [← List.dropLast_append_getLast hne]
      rw [hx]
    have h1 : s.toList.dropLast.filter (fun c => c != 'X') = s.toList.dropLast := by
      rw [List.filter_eq_self]
      intro c hc
      simp only [bne_iff_ne, ne_eq]
      intro hcx
      subst hcx
      exact h (by simpa using hc)
    have h2 : List.filter (fun c => c != 'X') ['X'] = [] := by decide
    have hfilter : s.toList.filter (fun c => c != 'X') = s.toList.dropLast := by
      conv_lhs => rw [hdecomp]
      rw [List.filter_append, h1, h2, List.append_nil]
    show String.mk (s.toList.filter (fun c => c != 'X')) = String.mk s.toList.dropLast
    exact congrArg String.mk hfilter
  · rw [if_neg hlast] at h ⊢
    have h1 : s.toList.filter (fun c => c != 'X') = s.toList := by
      rw [List.filter_eq_self]
      intro c hc
      simp only [bne_iff_ne, ne_eq]
      intro hcx
      subst hcx
      exact h hc
    show String.mk (s.toList.filter (fun c => c != 'X')) = s
    rw [h1]
    rfl

/-- C7: for every per-sample table, the extracted `Coverage` field equals
the first coverage-summary row's value with the trailing `X` unit suffix
stripped, converted to a number and rounded to two decimal places; a table
with no coverage-summary row yields Coverage 0.  (The concrete `"12X"`
scenario is the witness.) -/
theorem c7_coverage (df : List Row) (csv_file : String)
    (md : List (String × MetaEntry)) (rec : SampleRecord)
    (hrec : create_data_dict df csv_file md = some rec) :
    (covRows df = [] → rec.coverage = some 0) ∧
    (∀ r rest q, covRows df = r :: rest →
      'X' ∉ (stripTrailingX r.number_of_reads_mapped).toList →
      parseDecimal (stripTrailingX r.number_of_reads_mapped) = some q →
      rec.coverage = some (round2 q)) := by
  obtain ⟨-, -, -, -, -, -, -, -, -, -, hcov⟩ := create_data_dict_fields hrec
  constructor
  · intro hnil
    rw [hcov]
    unfold coverageField
    rw [hnil]
    have : round2 0 = 0 := by decide
    rw [this]
  · intro r rest q hrows hx hq
    rw [hcov]
    unfold coverageField
    rw [hrows]
    have hv : rowVal r = some q := by
      unfold rowVal
      rw [stripX_eq_stripTrailingX _ hx, hq]
    show Option.map round2 (rowVal r) = some (round2 q)
    rw [hv]
    rfl

/-- The table of the C7 witness: a coverage row reading `"12X"`. -/
def c7Table : List Row := [⟨"genome_coverage", "12X"⟩]

/-- The record `create_data_dict` produces on `c7Table`. -/
def c7Rec : SampleRecord :=
  { seqid := "b01", olnid := "OLN-1", oType := "-", hType := "-",
    stx1 := .str "-", stx2 := .str "-", eae := .str "-", hylA := .str "-",
    aggR := .str "-", aaiC := .str "-", uidA := .str "-", gdcs := "1/325",
    coverage := some 12 }

theorem c7_coverage_witness :
    create_data_dict c7Table "b01_iteration1.csv" sampleMeta = some c7Rec ∧
    c7Rec.coverage = some (round2 12) ∧ round2 12 = (12 : ℚ) := by
  have h := c7_coverage c7Table "b01_iteration1.csv" sampleMeta c7Rec (by decide)
  refine ⟨by decide, ?_, by decide⟩
  exact (h.2 ⟨"genome_coverage", "12X"⟩ [] 12 (by decide) (by decide) (by decide))

/-! ## C9: uidA rows count in both the uidA field and the GDCS count -/

theorem rowsOverOne_mem {x : Row} {l : List Row} (hx : x ∈ rowsOverOne l) :
    (1 : ℚ) < rowValD x := by
  have hp := (List.mem_filter.mp hx).2
  cases hv : rowVal x with
  | none => rw [hv] at hp; simp at hp
  | some qx =>
    rw [hv] at hp
    have : (1 : ℚ) < qx := of_decide_eq_true hp
    simpa [rowValD, hv] using this

/-- C9: a row whose `gene_name` contains the substring `uidA` (and none of
the exclusion patterns `O/`, `H/`, `Stx`, `eae`, `ehxA`, `aggR`, `aaiC`,
`#`) is counted both in the uidA virulence field and in the
conserved-marker (GDCS) count, because the conserved-row exclusion filter
does not exclude uidA rows; a single such row with more than one mapped
read increments the GDCS numerator. -/
theorem c9_uida_double_counted (dfa dfb : List Row) (r : Row) (csv_file : String)
    (md : List (String × MetaEntry)) (rec : SampleRecord)
    (hrec : create_data_dict (dfa ++ r :: dfb) csv_file md = some rec)
    (hu : strContains r.gene_name "uidA" = true)
    (hex : gdcsExcluded r.gene_name = false)
    (q : ℚ) (hq : rowVal r = some q) (h1 : (1 : ℚ) < q) :
    r ∈ rowsOverOne (rowsContaining "uidA" (dfa ++ r :: dfb)) ∧
    r ∈ rowsOverOne (gdcsRows (dfa ++ r :: dfb)) ∧
    gdcsCount (dfa ++ r :: dfb) = gdcsCount (dfa ++ dfb) + 1 ∧
    rec.uidA = PyVal.int (pyTrunc (virSum "uidA" (dfa ++ r :: dfb))) ∧
    rec.uidA ≠ PyVal.str "-" ∧
    rec.gdcs = toString (gdcsCount (dfa ++ r :: dfb)) ++ "/325" := by
  have hover : ∀ {l : List Row}, r ∈ l → r ∈ rowsOverOne l := by
    intro l hl
    refine List.mem_filter.mpr ⟨hl, ?_⟩
    rw [hq]
    exact decide_eq_true h1
  have hmem : r ∈ dfa ++ r :: dfb :=
    List.mem_append_right dfa (List.mem_cons_self r dfb)
  have hmemU : r ∈ rowsContaining "uidA" (dfa ++ r :: dfb) :=
    List.mem_filter.mpr ⟨hmem, hu⟩
  have hmemG : r ∈ gdcsRows (dfa ++ r :: dfb) :=
    List.mem_filter.mpr ⟨hmem, by rw [hex]; rfl⟩
  have hcount : gdcsCount (dfa ++ r :: dfb) = gdcsCount (dfa ++ dfb) + 1 := by
    unfold gdcsCount gdcsRows rowsOverOne
    rw [List.filter_append, List.filter_append, List.filter_cons]
    have hkeep : (!gdcsExcluded r.gene_name) = true := by rw [hex]; rfl
    rw [if_pos hkeep, List.filter_cons]
    have hkeep2 : (match rowVal r with
        | some q => decide ((1 : ℚ) < q)
        | none => false) = true := by
      rw [hq]; exact decide_eq_true h1
    rw [if_pos hkeep2, List.filter_append, List.filter_append]
    simp only [List.length_append, List.length_cons]
    omega
  obtain ⟨-, -, -, -, -, -, -, -, hru, hrg, -⟩ := create_data_dict_fields hrec
  have hpos : (0 : ℚ) < virSum "uidA" (dfa ++ r :: dfb) := by
    have hnn : ∀ x ∈ rowsOverOne (rowsContaining "uidA" (dfa ++ r :: dfb)), 0 ≤ rowValD x := by
      intro x hx
      exact le_of_lt (lt_trans zero_lt_one (rowsOverOne_mem hx))
    have hle := rowValD_le_readsSum (hover hmemU) hnn
    have : (0 : ℚ) < rowValD r := by
      rw [show rowValD r = q from by simp [rowValD, hq]]
      exact lt_trans zero_lt_one h1
    exact lt_of_lt_of_le this hle
  have huida : rec.uidA = PyVal.int (pyTrunc (virSum "uidA" (dfa ++ r :: dfb))) := by
    rw [hru]
    unfold virField
    cases hrows : rowsContaining "uidA" (dfa ++ r :: dfb) with
    | nil => rw [hrows] at hmemU; simp at hmemU
    | cons a rest => rw [if_pos hpos]
  refine ⟨hover hmemU, hover hmemG, hcount, huida, ?_, ?_⟩
  · rw [huida]; simp
  · rw [hrg]; rfl

/-- The record `create_data_dict` produces on the single-row uidA table of
the C9 witness. -/
def c9Rec : SampleRecord :=
  { seqid := "b01", olnid := "OLN-1", oType := "-", hType := "-",
    stx1 := .str "-", stx2 := .str "-", eae := .str "-", hylA := .str "-",
    aggR := .str "-", aaiC := .str "-", uidA := .int 5, gdcs := "1/325",
    coverage := some 0 }

theorem c9_uida_double_counted_witness :
    create_data_dict [(⟨"uidA", "5"⟩ : Row)] "b01_iteration1.csv" sampleMeta = some c9Rec ∧
    c9Rec.uidA = PyVal.int 5 ∧ c9Rec.gdcs = "1/325" ∧
    gdcsCount [(⟨"uidA", "5"⟩ : Row)] = gdcsCount [] + 1 := by
  have h := c9_uida_double_counted [] [] ⟨"uidA", "5"⟩ "b01_iteration1.csv"
    sampleMeta c9Rec (by decide) (by decide) (by decide) 5 (by decide) (by decide)
  exact ⟨by decide, by decide, by decide, h.2.2.1⟩

/-! ## C10: `get_sorted_barcode_values` -/

theorem keyedPieces_spec :
    ∀ {pieces : List String} {keyed : List (ℤ × String)},
      keyedPieces pieces = some keyed →
      keyed.map Prod.snd = pieces ∧ ∀ p ∈ keyed, pyIntOfString p.2 = some p.1 := by
  intro pieces
  induction pieces with
  | nil =>
    intro keyed h
    cases h
    exact ⟨rfl, by intro p hp; simp at hp⟩
  | cons x xs ih =>
    intro keyed h
    unfold keyedPieces at h
    cases hx : pyIntOfString x with
    | none => rw [hx] at h; simp at h
    | some n =>
      rw [hx] at h
      cases hxs : keyedPieces xs with
      | none => rw [hxs] at h; simp at h
      | some ys =>
        rw [hxs] at h
        cases h
        obtain ⟨hmap, hall⟩ := ih hxs
        refine ⟨by rw [List.map_cons, hmap], ?_⟩
        intro p hp
        rcases List.mem_cons.mp hp with hp | hp
        · subst hp; exact hx
        · exact hall p hp

theorem length_mk (l : List Char) : (String.mk l).length = l.length := rfl

theorem zfill_two_length (s : String) : 2 ≤ (zfill 2 s).length := by
  unfold zfill
  cases hcs : s.toList with
  | nil => decide
  | cons c rest =>
    by_cases hsign : (c == '+' || c == '-') = true
    · simp only [hsign, if_true, length_mk, List.length_cons, List.length_append,
        List.length_replicate]
      omega
    · simp only [hsign, if_false, length_mk, List.length_cons, List.length_append,
        List.length_replicate, Bool.false_eq_true]
      omega

/-- C10: `get_sorted_barcode_values` returns the comma-separated barcode
values sorted in ascending order of their integer value, each zero-padded
on the left to at least two characters; an absent `barcode_values` key or
an empty string yields the empty list. -/
theorem c10_get_sorted_barcode_values (bv : Option String) :
    (bv.getD "" = "" → get_sorted_barcode_values bv = some []) ∧
    (∀ l, get_sorted_barcode_values bv = some l → bv.getD "" ≠ "" →
      ∃ ks : List (ℤ × String),
        (ks.map Prod.snd).Perm (pySplit ',' (bv.getD "")) ∧
        (∀ p ∈ ks, pyIntOfString p.2 = some p.1) ∧
        ks.Pairwise (fun a b => a.1 ≤ b.1) ∧
        l = ks.map (fun p => zfill 2 p.2) ∧
        (∀ x ∈ l, 2 ≤ x.length)) := by
  constructor
  · intro hempty
    unfold get_sorted_barcode_values
    rw [hempty]
    rfl
  · intro l hl hne
    unfold get_sorted_barcode_values at hl
    rw [if_neg hne] at hl
    cases hk : keyedPieces (pySplit ',' (bv.getD "")) with
    | none => rw [hk] at hl; simp at hl
    | some keyed =>
      rw [hk] at hl
      obtain ⟨hmap, hall⟩ := keyedPieces_spec hk
      refine ⟨keyed.insertionSort intKeyLe, ?_, ?_, ?_, ?_, ?_⟩
      · rw [← hmap]
        exact (List.perm_insertionSort intKeyLe keyed).map Prod.snd
      · intro p hp
        exact hall p ((List.perm_insertionSort intKeyLe keyed).mem_iff.mp hp)
      · exact (List.sorted_insertionSort intKeyLe keyed).imp (fun h => h)
      · exact (Option.some.inj hl).symm
      · intro x hx
        rw [← Option.some.inj hl] at hx
        obtain ⟨p, _, rfl⟩ := List.mem_map.mp hx
        exact zfill_two_length p.2

theorem c10_get_sorted_barcode_values_witness :
    get_sorted_barcode_values none = some [] ∧
    get_sorted_barcode_values (some "3,1,02") = some ["01", "02", "03"] ∧
    (∃ ks : List (ℤ × String),
      (ks.map Prod.snd).Perm (pySplit ',' "3,1,02") ∧
      (∀ p ∈ ks, pyIntOfString p.2 = some p.1) ∧
      ks.Pairwise (fun a b => a.1 ≤ b.1) ∧
      ["01", "02", "03"] = ks.map (fun p => zfill 2 p.2) ∧
      (∀ x ∈ ["01", "02", "03"], 2 ≤ x.length)) := by
  refine ⟨(c10_get_sorted_barcode_values none).1 rfl, by decide, ?_⟩
  exact (c10_get_sorted_barcode_values (some "3,1,02")).2 ["01", "02", "03"]
    (by decide) (by decide)

/-! ## C8: duplicate SEQIDs in the metadata -/

theorem assocHas_iff (d : List (String × List String)) (k : String) :
    assocHas d k = true ↔ k ∈ d.map Prod.fst := by
  unfold assocHas
  rw [List.any_eq_true]
  constructor
  · rintro ⟨p, hp, hpk⟩
    exact List.mem_map.mpr ⟨p, hp, by simpa using hpk⟩
  · intro hk
    obtain ⟨p, hp, rfl⟩ := List.mem_map.mp hk
    exact ⟨p, hp, by simp⟩

theorem assocAppend_keys {d : List (String × List String)} {k : String} (b : String)
    (h : assocHas d k = true) :
    (assocAppend d k b).map Prod.fst = d.map Prod.fst := by
  induction d with
  | nil => simp [assocHas] at h
  | cons p t ih =>
    obtain ⟨k', bs⟩ := p
    unfold assocAppend
    by_cases hk : k' = k
    · rw [if_pos hk]; rfl
    · rw [if_neg hk]
      have ht : assocHas t k = true := by
        unfold assocHas at h
        simp only [List.any_cons] at h
        rcases Bool.or_eq_true_iff.mp h with h | h
        · exact absurd (by simpa using h) hk
        · exact h
      simp only [List.map_cons]
      rw [ih ht]

theorem assocAppend_mem_of_has {d : List (String × List String)} {k : String} (b : String)
    (h : assocHas d k = true) :
    ∃ bs₀, (k, bs₀) ∈ d ∧ (k, bs₀ ++ [b]) ∈ assocAppend d k b := by
  induction d with
  | nil => simp [assocHas] at h
  | cons p t ih =>
    obtain ⟨k', bs⟩ := p
    unfold assocAppend
    by_cases hk : k' = k
    · subst hk
      exact ⟨bs, List.mem_cons_self _ _, by rw [if_pos rfl]; exact List.mem_cons_self _ _⟩
    · rw [if_neg hk]
      have ht : assocHas t k = true := by
        unfold assocHas at h
        simp only [List.any_cons] at h
        rcases Bool.or_eq_true_iff.mp h with h | h
        · exact absurd (by simpa using h) hk
        · exact h
      obtain ⟨bs₀, hmem, hmem'⟩ := ih ht
      exact ⟨bs₀, List.mem_cons_of_mem _ hmem, List.mem_cons_of_mem _ hmem'⟩

theorem assocAppend_pres_mem {d : List (String × List String)} (k b : String)
    {s b₀ : String} {bs : List String} (hmem : (s, bs) ∈ d) (hb : b₀ ∈ bs) :
    ∃ bs', (s, bs') ∈ assocAppend d k b ∧ b₀ ∈ bs' := by
  induction d with
  | nil => simp at hmem
  | cons p t ih =>
    obtain ⟨k', v⟩ := p
    unfold assocAppend
    rcases List.mem_cons.mp hmem with hhead | htail
    · rw [Prod.mk.injEq] at hhead
      obtain ⟨hs, hv⟩ := hhead
      subst hs
      subst hv
      by_cases hk : s = k
      · rw [if_pos hk]
        exact ⟨bs ++ [b], List.mem_cons_self _ _, List.mem_append_left _ hb⟩
      · rw [if_neg hk]
        exact ⟨bs, List.mem_cons_self _ _, hb⟩
    · by_cases hk : k' = k
      · rw [if_pos hk]
        exact ⟨bs, List.mem_cons_of_mem _ htail, hb⟩
      · rw [if_neg hk]
        obtain ⟨bs', hmem', hb'⟩ := ih htail
        exact ⟨bs', List.mem_cons_of_mem _ hmem', hb'⟩

theorem keys_nodup_unique :
    ∀ (d : List (String × List String)), (d.map Prod.fst).Nodup →
      ∀ s bs₁ bs₂, (s, bs₁) ∈ d → (s, bs₂) ∈ d → bs₁ = bs₂ := by
  intro d
  induction d with
  | nil => intro _ s bs₁ bs₂ h; simp at h
  | cons p t ih =>
    intro hnd s bs₁ bs₂ h1 h2
    obtain ⟨k, v⟩ := p
    have hnd' : k ∉ t.map Prod.fst ∧ (t.map Prod.fst).Nodup :=
      List.nodup_cons.mp hnd
    rcases List.mem_cons.mp h1 with h1 | h1 <;> rcases List.mem_cons.mp h2 with h2 | h2
    · rw [Prod.mk.injEq] at h1 h2
      rw [h1.2, h2.2]
    · rw [Prod.mk.injEq] at h1
      exact absurd (List.mem_map.mpr ⟨(s, bs₂), h2, h1.1⟩) hnd'.1
    · rw [Prod.mk.injEq] at h2
      exact absurd (List.mem_map.mpr ⟨(s, bs₁), h1, h2.1⟩) hnd'.1
    · exact ih hnd'.2 s bs₁ bs₂ h1 h2

theorem valStep_pres_mem (st : ValState) (row : TableRow) {s b₀ : String}
    {bs : List String} (hmem : (s, bs) ∈ st.seqidToBarcodes) (hb : b₀ ∈ bs) :
    ∃ bs', (s, bs') ∈ (valStep st row).seqidToBarcodes ∧ b₀ ∈ bs' := by
  unfold valStep
  by_cases h1 : rstrip row.seqid = ""
  · rw [if_pos h1]; exact ⟨bs, hmem, hb⟩
  · rw [if_neg h1]
    by_cases h2 : (!seqidMatch (rstrip row.seqid)) = true
    · rw [if_pos h2]; exact ⟨bs, hmem, hb⟩
    · rw [if_neg h2]
      by_cases h3 : assocHas st.seqidToBarcodes (rstrip row.seqid) = true
      · rw [if_pos h3]
        exact assocAppend_pres_mem _ _ hmem hb
      · rw [if_neg h3]
        exact ⟨bs, List.mem_append_left _ hmem, hb⟩

theorem valFold_pres_mem :
    ∀ (rows : List TableRow) (st : ValState) {s b₀ : String} {bs : List String},
      (s, bs) ∈ st.seqidToBarcodes → b₀ ∈ bs →
      ∃ bs', (s, bs') ∈ (rows.foldl valStep st).seqidToBarcodes ∧ b₀ ∈ bs' := by
  intro rows
  induction rows with
  | nil => intro st s b₀ bs hmem hb; exact ⟨bs, hmem, hb⟩
  | cons row rows ih =>
    intro st s b₀ bs hmem hb
    obtain ⟨bs', hmem', hb'⟩ := valStep_pres_mem st row hmem hb
    exact ih (valStep st row) hmem' hb'

theorem valFold_mem_row :
    ∀ (rows : List TableRow) (st : ValState) (row : TableRow), row ∈ rows →
      rstrip row.seqid ≠ "" → seqidMatch (rstrip row.seqid) = true →
      ∃ bs, (rstrip row.seqid, bs) ∈ (rows.foldl valStep st).seqidToBarcodes ∧
        rstrip row.barcode ∈ bs := by
  intro rows
  induction rows with
  | nil => intro st row h; simp at h
  | cons r0 rows ih =>
    intro st row hmem hne hmatch
    rcases List.mem_cons.mp hmem with rfl | hmem
    · have hstep : ∃ bs, (rstrip row.seqid, bs) ∈ (valStep st row).seqidToBarcodes ∧
          rstrip row.barcode ∈ bs := by
        unfold valStep
        rw [if_neg hne, if_neg (by simp [hmatch])]
        by_cases h3 : assocHas st.seqidToBarcodes (rstrip row.seqid) = true
        · rw [if_pos h3]
          obtain ⟨bs₀, -, hmem'⟩ := assocAppend_mem_of_has (rstrip row.barcode) h3
          exact ⟨bs₀ ++ [rstrip row.barcode], hmem', List.mem_append_right _ (by simp)⟩
        · rw [if_neg h3]
          exact ⟨[rstrip row.barcode],
            List.mem_append_right _ (by simp), by simp⟩
      obtain ⟨bs, hmem', hb⟩ := hstep
      exact valFold_pres_mem rows (valStep st row) hmem' hb
    · exact ih (valStep st r0) row hmem hne hmatch

theorem valStep_inv (st : ValState) (row : TableRow)
    (h1 : (st.seqidToBarcodes.map Prod.fst).Nodup)
    (h2 : ∀ e ∈ st.sequenceInfo, assocHas st.seqidToBarcodes e.seqid = true)
    (h3 : st.sequenceInfo.Pairwise (fun a b => a.seqid ≠ b.seqid)) :
    ((valStep st row).seqidToBarcodes.map Prod.fst).Nodup ∧
    (∀ e ∈ (valStep st row).sequenceInfo,
      assocHas (valStep st row).seqidToBarcodes e.seqid = true) ∧
    (valStep st row).sequenceInfo.Pairwise (fun a b => a.seqid ≠ b.seqid) := by
  unfold valStep
  by_cases hb1 : rstrip row.seqid = ""
  · rw [if_pos hb1]; exact ⟨h1, h2, h3⟩
  · rw [if_neg hb1]
    by_cases hb2 : (!seqidMatch (rstrip row.seqid)) = true
    · rw [if_pos hb2]; exact ⟨h1, h2, h3⟩
    · rw [if_neg hb2]
      by_cases hb3 : assocHas st.seqidToBarcodes (rstrip row.seqid) = true
      · rw [if_pos hb3]
        refine ⟨?_, ?_, h3⟩
        · show ((assocAppend st.seqidToBarcodes (rstrip row.seqid)
            (rstrip row.barcode)).map Prod.fst).Nodup
          rw [assocAppend_keys _ hb3]
          exact h1
        · intro e he
          show assocHas (assocAppend st.seqidToBarcodes (rstrip row.seqid)
            (rstrip row.barcode)) e.seqid = true
          rw [assocHas_iff, assocAppend_keys _ hb3, ← assocHas_iff]
          exact h2 e he
      · rw [if_neg hb3]
        refine ⟨?_, ?_, ?_⟩
        · show ((st.seqidToBarcodes ++ [(rstrip row.seqid, [rstrip row.barcode])]).map
            Prod.fst).Nodup
          rw [List.map_append, List.nodup_append]
          refine ⟨h1, by simp, ?_⟩
          intro a ha
          simp only [List.map_cons, List.map_nil, List.mem_singleton]
          intro heq
          subst heq
          exact hb3 ((assocHas_iff _ _).mpr ha)
        · intro e he
          show assocHas (st.seqidToBarcodes ++ [(rstrip row.seqid, [rstrip row.barcode])])
            e.seqid = true
          rw [assocHas_iff, List.map_append]
          rcases List.mem_append.mp
              (show e ∈ st.sequenceInfo ++
                [(⟨rstrip row.barcode, rstrip row.seqid, rstrip row.olnid⟩ : SeqInfo)]
               from he) with he' | he'
          · exact List.mem_append_left _ ((assocHas_iff _ _).mp (h2 e he'))
          · have heq : e = (⟨rstrip row.barcode, rstrip row.seqid, rstrip row.olnid⟩ :
                SeqInfo) := by simpa using he'
            subst heq
            exact List.mem_append_right _ (by simp)
        · show (st.sequenceInfo ++
            [(⟨rstrip row.barcode, rstrip row.seqid, rstrip row.olnid⟩ : SeqInfo)]).Pairwise
              (fun a b => a.seqid ≠ b.seqid)
          rw [List.pairwise_append]
          refine ⟨h3, by simp, ?_⟩
          intro a ha b hb
          have hbeq : b = (⟨rstrip row.barcode, rstrip row.seqid, rstrip row.olnid⟩ :
              SeqInfo) := by simpa using hb
          subst hbeq
          intro heq
          have heq' : a.seqid = rstrip row.seqid := heq
          exact hb3 (by rw [← heq']; exact h2 a ha)

theorem valFold_inv :
    ∀ (rows : List TableRow) (st : ValState),
      (st.seqidToBarcodes.map Prod.fst).Nodup →
      (∀ e ∈ st.sequenceInfo, assocHas st.seqidToBarcodes e.seqid = true) →
      st.sequenceInfo.Pairwise (fun a b => a.seqid ≠ b.seqid) →
      ((rows.foldl valStep st).seqidToBarcodes.map Prod.fst).Nodup ∧
      (∀ e ∈ (rows.foldl valStep st).sequenceInfo,
        assocHas (rows.foldl valStep st).seqidToBarcodes e.seqid = true) ∧
      (rows.foldl valStep st).sequenceInfo.Pairwise (fun a b => a.seqid ≠ b.seqid) := by
  intro rows
  induction rows with
  | nil => intro st h1 h2 h3; exact ⟨h1, h2, h3⟩
  | cons row rows ih =>
    intro st h1 h2 h3
    obtain ⟨g1, g2, g3⟩ := valStep_inv st row h1 h2 h3
    exact ih (valStep st row) g1 g2 g3

/-- C8 counterexample: the pipeline's metadata loader (methods.py 700-709)
raises no error when the same SEQID appears under two barcodes — the
duplicate is silently accepted into the lookup and the last row wins
(barcode `02`), contradicting the claimed load-time failure. -/
theorem c8_duplicate_seqid_counterexample :
    loadLinkDict [⟨"01", "2024-MIN-0001", "OLN-A"⟩, ⟨"02", "2024-MIN-0001", "OLN-B"⟩] =
      [("2024-MIN-0001", ⟨"OLN-B", "02"⟩)] ∧
    dictFind
      (loadLinkDict [⟨"01", "2024-MIN-0001", "OLN-A"⟩, ⟨"02", "2024-MIN-0001", "OLN-B"⟩])
      "2024-MIN-0001" = some ⟨"OLN-B", "02"⟩ :=
  ⟨by decide, by decide⟩

/-- C8 (amended): duplicate SEQIDs are rejected at metadata-entry
validation in the GUI, not by the pipeline's loader: every valid row's
barcode is recorded in its SEQID's group, a SEQID is bound to exactly one
group, any group with two or more barcodes produces the message naming all
of them and makes `validate_seqid_entries` return false, and the accepted
`sequence_info` never contains the same SEQID twice (only the first
occurrence is kept); the pipeline's own metadata loader performs no
duplicate check and silently keeps the last entry. -/
theorem c8_duplicate_seqid_amended (rows : List TableRow) :
    (∀ s bs, (s, bs) ∈ seqidGroups rows → 1 < bs.length →
      notUniqueMsg s bs ∈ (validate_seqid_entries rows).1 ∧
      (validate_seqid_entries rows).2.2 = false) ∧
    (∀ row ∈ rows, rstrip row.seqid ≠ "" → seqidMatch (rstrip row.seqid) = true →
      ∃ bs, (rstrip row.seqid, bs) ∈ seqidGroups rows ∧ rstrip row.barcode ∈ bs) ∧
    (∀ s bs₁ bs₂, (s, bs₁) ∈ seqidGroups rows → (s, bs₂) ∈ seqidGroups rows →
      bs₁ = bs₂) ∧
    (validate_seqid_entries rows).2.1.Pairwise (fun a b => a.seqid ≠ b.seqid) := by
  have hinv := valFold_inv rows ⟨[], [], []⟩ (by simp) (by intro e he; simp at he)
    (by simp)
  have hmsgs : (validate_seqid_entries rows).1 =
      (rows.foldl valStep ⟨[], [], []⟩).invalidMessages ++
      (((rows.foldl valStep ⟨[], [], []⟩).seqidToBarcodes.filter
        (fun p => decide (1 < p.2.length))).map (fun p => notUniqueMsg p.1 p.2)) := rfl
  have hok : (validate_seqid_entries rows).2.2 = ((validate_seqid_entries rows).1).isEmpty :=
    rfl
  have hinfo : (validate_seqid_entries rows).2.1 =
      (rows.foldl valStep ⟨[], [], []⟩).sequenceInfo := rfl
  refine ⟨?_, ?_, ?_, ?_⟩
  · intro s bs hmem hlen
    have hmsg : notUniqueMsg s bs ∈
        (((rows.foldl valStep ⟨[], [], []⟩).seqidToBarcodes.filter
          (fun p => decide (1 < p.2.length))).map (fun p => notUniqueMsg p.1 p.2)) :=
      List.mem_map.mpr ⟨(s, bs),
        List.mem_filter.mpr ⟨hmem, decide_eq_true hlen⟩, rfl⟩
    have hmem' : notUniqueMsg s bs ∈ (validate_seqid_entries rows).1 := by
      rw [hmsgs]
      exact List.mem_append_right _ hmsg
    refine ⟨hmem', ?_⟩
    rw [hok]
    cases hemp : ((validate_seqid_entries rows).1).isEmpty
    · rfl
    · exact absurd (List.isEmpty_iff.mp hemp ▸ hmem') (by simp)
  · intro row hrow hne hmatch
    exact valFold_mem_row rows ⟨[], [], []⟩ row hrow hne hmatch
  · intro s bs₁ bs₂ h1 h2
    exact keys_nodup_unique _ hinv.1 s bs₁ bs₂ h1 h2
  · rw [hinfo]
    exact hinv.2.2

/-- The duplicated metadata table of the C8 witness. -/
def c8Rows : List TableRow :=
  [⟨"01", "2024-MIN-0001", "OLN-A"⟩, ⟨"02", "2024-MIN-0001", "OLN-B"⟩]

theorem c8_duplicate_seqid_amended_witness :
    notUniqueMsg "2024-MIN-0001" ["01", "02"] ∈ (validate_seqid_entries c8Rows).1 ∧
    (validate_seqid_entries c8Rows).2.2 = false ∧
    notUniqueMsg "2024-MIN-0001" ["01", "02"] =
      "SEQID '2024-MIN-0001' is not unique, found in barcodes: 01, 02." ∧
    (validate_seqid_entries c8Rows).2.1 = [⟨"01", "2024-MIN-0001", "OLN-A"⟩] := by
  have h := (c8_duplicate_seqid_amended c8Rows).1 "2024-MIN-0001" ["01", "02"]
    (by decide) (by decide)
  exact ⟨h.1, h.2, by decide, by decide⟩

/-! ## C3 and C4: readiness gating and the processed-file ledger -/

theorem foldl_preserve {α β : Type} (P : β → Prop) (g : β → α → β) :
    ∀ (l : List α) (st : β), P st → (∀ st' a, a ∈ l → P st' → P (g st' a)) →
      P (l.foldl g st) := by
  intro l
  induction l with
  | nil => intro st h _; exact h
  | cons a l ih =>
    intro st h hstep
    exact ih (g st a) (hstep st a (List.mem_cons_self _ _) h)
      (fun st' b hb => hstep st' b (List.mem_cons_of_mem _ hb))

theorem processFile_eq (i : Nat) (st : CycleState) (f : String) :
    (f ∈ st.processed ∧ processFile i st f = st) ∨
    (f ∉ st.processed ∧ processFile i st f =
      ⟨st.events ++ [.append i f, .render i (st.allData ++ [f]), .move f],
       st.processed ++ [f], st.allData ++ [f], st.currentIter⟩) := by
  unfold processFile
  by_cases h : f ∈ st.processed
  · left; exact ⟨h, if_pos h⟩
  · right; exact ⟨h, if_neg h⟩

theorem mem_sorted_iterFiles {files : List String} {i : Nat} {f : String}
    (hf : f ∈ (iterFiles files i).insertionSort strLe) :
    extract_iteration f = some i ∧ f ∈ files := by
  have hmem : f ∈ iterFiles files i :=
    (List.perm_insertionSort strLe (iterFiles files i)).subset hf
  obtain ⟨hin, hdec⟩ := List.mem_filter.mp hmem
  exact ⟨of_decide_eq_true hdec, hin⟩

/-- The invariant behind the readiness gate: no event of a skipped
iteration `i` has been produced and its files' ledger status is
untouched. -/
def gateInv (processed : List String) (i : Nat) (st : CycleState) : Prop :=
  (∀ f, Ev.append i f ∉ st.events) ∧
  (∀ t, Ev.render i t ∉ st.events) ∧
  Ev.pdf i ∉ st.events ∧
  (∀ f, extract_iteration f = some i → Ev.move f ∉ st.events) ∧
  (∀ f, extract_iteration f = some i → (f ∈ st.processed ↔ f ∈ processed))

theorem gateInv_processFile {processed : List String} {i j : Nat} (hji : j ≠ i)
    {st : CycleState} {f : String} (hfi : extract_iteration f = some j)
    (hP : gateInv processed i st) : gateInv processed i (processFile j st f) := by
  obtain ⟨hap, hre, hpd, hmv, hpr⟩ := hP
  rcases processFile_eq j st f with ⟨-, heq⟩ | ⟨-, heq⟩
  · rw [heq]; exact ⟨hap, hre, hpd, hmv, hpr⟩
  · rw [heq]
    refine ⟨?_, ?_, ?_, ?_, ?_⟩
    · intro g hcontra
      rcases List.mem_append.mp hcontra with h | h
      · exact hap g h
      · rcases List.mem_cons.mp h with h | h
        · exact hji (Ev.append.inj h).1.symm
        · simp at h
    · intro t hcontra
      rcases List.mem_append.mp hcontra with h | h
      · exact hre t h
      · rcases List.mem_cons.mp h with h | h
        · simp at h
        · rcases List.mem_cons.mp h with h | h
          · exact hji (Ev.render.inj h).1.symm
          · simp at h
    · intro hcontra
      rcases List.mem_append.mp hcontra with h | h
      · exact hpd h
      · simp at h
    · intro g hg hcontra
      rcases List.mem_append.mp hcontra with h | h
      · exact hmv g hg h
      · rcases List.mem_cons.mp h with h | h
        · simp at h
        · rcases List.mem_cons.mp h with h | h
          · simp at h
          · have hgf : g = f := by simpa using h
            subst hgf
            rw [hg] at hfi
            exact hji (Option.some.inj hfi).symm
    · intro g hg
      rw [List.mem_append]
      constructor
      · rintro (h | h)
        · exact (hpr g hg).mp h
        · have hgf : g = f := by simpa using h
          subst hgf
          rw [hg] at hfi
          exact absurd (Option.some.inj hfi).symm hji
      · intro h
        exact Or.inl ((hpr g hg).mpr h)

theorem gateInv_processIteration {processed files : List String} {i nb : Nat}
    (hlt : (iterFiles files i).length < nb) {st : CycleState}
    (hP : gateInv processed i st) (j : Nat) :
    gateInv processed i (processIteration nb files st j) := by
  by_cases hready : (iterFiles files j).length < nb
  · unfold processIteration
    rw [if_pos hready]
    exact hP
  · have hji : j ≠ i := by
      intro heq; subst heq; exact hready hlt
    unfold processIteration
    rw [if_neg hready]
    have hP1 : gateInv processed i
        (if st.currentIter = some j then st else { st with allData := [] }) := by
      by_cases hcur : st.currentIter = some j
      · rw [if_pos hcur]; exact hP
      · rw [if_neg hcur]; exact hP
    have hfold := foldl_preserve (gateInv processed i) (processFile j)
      ((iterFiles files j).insertionSort strLe)
      (if st.currentIter = some j then st else { st with allData := [] })
      hP1
      (fun st' f hf hP' =>
        gateInv_processFile hji (mem_sorted_iterFiles hf).1 hP')
    obtain ⟨hap, hre, hpd, hmv, hpr⟩ := hfold
    refine ⟨?_, ?_, ?_, ?_, hpr⟩
    · intro f hcontra
      rcases List.mem_append.mp hcontra with h | h
      · exact hap f h
      · simp at h
    · intro t hcontra
      rcases List.mem_append.mp hcontra with h | h
      · exact hre t h
      · simp at h
    · intro hcontra
      rcases List.mem_append.mp hcontra with h | h
      · exact hpd h
      · have hij : i = j := by simpa using h
        exact hji hij.symm
    · intro f hfi hcontra
      rcases List.mem_append.mp hcontra with h | h
      · exact hmv f hfi h
      · simp at h

/-- C3: for every poll cycle, an iteration with fewer distinct sample files
than the number of configured barcode values produces no SampleRecord, no
table render and no report for that iteration; its files are neither moved
nor marked processed, so the iteration is retried unchanged on the next
poll. -/
theorem c3_readiness_gating (nb : Nat) (processed files : List String) (i : Nat)
    (hlt : (iterFiles files i).length < nb) :
    (∀ f, Ev.append i f ∉ (runCycle nb processed files).events) ∧
    (∀ t, Ev.render i t ∉ (runCycle nb processed files).events) ∧
    Ev.pdf i ∉ (runCycle nb processed files).events ∧
    (∀ f, extract_iteration f = some i →
      Ev.move f ∉ (runCycle nb processed files).events) ∧
    (∀ f, extract_iteration f = some i →
      (f ∈ remainingFiles files (runCycle nb processed files) ↔ f ∈ files)) ∧
    (∀ f, extract_iteration f = some i →
      (f ∈ (runCycle nb processed files).processed ↔ f ∈ processed)) := by
  have hmain : gateInv processed i (runCycle nb processed files) := by
    unfold runCycle
    refine foldl_preserve (gateInv processed i) (processIteration nb files)
      (sortedIterations files) ⟨[], processed, [], none⟩ ?_ ?_
    · refine ⟨?_, ?_, ?_, ?_, ?_⟩ <;> simp
    · intro st j _ hP
      exact gateInv_processIteration hlt hP j
  obtain ⟨hap, hre, hpd, hmv, hpr⟩ := hmain
  refine ⟨hap, hre, hpd, hmv, ?_, hpr⟩
  intro f hf
  unfold remainingFiles
  rw [List.mem_filter]
  constructor
  · intro h; exact h.1
  · intro h
    exact ⟨h, decide_eq_true (hmv f hf)⟩

theorem c3_readiness_gating_witness :
    (iterFiles ["b01_iteration1.csv"] 1).length < 2 ∧
    (∀ f, Ev.append 1 f ∉ (runCycle 2 [] ["b01_iteration1.csv"]).events) ∧
    Ev.pdf 1 ∉ (runCycle 2 [] ["b01_iteration1.csv"]).events ∧
    ("b01_iteration1.csv" ∈
      remainingFiles ["b01_iteration1.csv"] (runCycle 2 [] ["b01_iteration1.csv"]) ↔
      "b01_iteration1.csv" ∈ ["b01_iteration1.csv"]) := by
  have h := c3_readiness_gating 2 [] ["b01_iteration1.csv"] 1 (by decide)
  exact ⟨by decide, h.1, h.2.2.1, h.2.2.2.2.1 "b01_iteration1.csv" (by decide)⟩

/-- The invariant behind idempotent consumption: a file `f` of the initial
ledger is never appended, moved or rendered, the ledger only grows, and
every appended file has been moved and recorded. -/
def ledgerInv (processed : List String) (f : String) (st : CycleState) : Prop :=
  (∀ j, Ev.append j f ∉ st.events) ∧
  Ev.move f ∉ st.events ∧
  (∀ j t, Ev.render j t ∈ st.events → f ∉ t) ∧
  f ∉ st.allData ∧
  (∀ g, g ∈ processed → g ∈ st.processed) ∧
  (∀ j g, Ev.append j g ∈ st.events → Ev.move g ∈ st.events ∧ g ∈ st.processed)

theorem ledgerInv_processFile {processed : List String} {f : String} (hf : f ∈ processed)
    {j : Nat} {st : CycleState} {g : String}
    (hP : ledgerInv processed f st) : ledgerInv processed f (processFile j st g) := by
  obtain ⟨h1, h2, h3, h4, h5, h6⟩ := hP
  rcases processFile_eq j st g with ⟨-, heq⟩ | ⟨hnew, heq⟩
  · rw [heq]; exact ⟨h1, h2, h3, h4, h5, h6⟩
  · have hgf : g ≠ f := by
      intro heqf
      subst heqf
      exact hnew (h5 g hf)
    rw [heq]
    refine ⟨?_, ?_, ?_, ?_, ?_, ?_⟩
    · intro j' hcontra
      rcases List.mem_append.mp hcontra with h | h
      · exact h1 j' h
      · rcases List.mem_cons.mp h with h | h
        · exact hgf ((Ev.append.inj h).2).symm
        · simp at h
    · intro hcontra
      rcases List.mem_append.mp hcontra with h | h
      · exact h2 h
      · rcases List.mem_cons.mp h with h | h
        · simp at h
        · rcases List.mem_cons.mp h with h | h
          · simp at h
          · have hfg : f = g := by simpa using h
            exact hgf hfg.symm
    · intro j' t hcontra
      rcases List.mem_append.mp hcontra with h | h
      · exact h3 j' t h
      · rcases List.mem_cons.mp h with h | h
        · simp at h
        · rcases List.mem_cons.mp h with h | h
          · have ht : t = st.allData ++ [g] := (Ev.render.inj h).2
            rw [ht]
            intro hcontra2
            rcases List.mem_append.mp hcontra2 with hx | hx
            · exact h4 hx
            · have hfg2 : f = g := by simpa using hx
              exact hgf hfg2.symm
          · simp at h
    · intro hcontra
      rcases List.mem_append.mp hcontra with h | h
      · exact h4 h
      · have hfg3 : f = g := by simpa using h
        exact hgf hfg3.symm
    · intro g' hg'
      exact List.mem_append_left _ (h5 g' hg')
    · intro j' g' happend
      rcases List.mem_append.mp happend with h | h
      · obtain ⟨hmv, hpr⟩ := h6 j' g' h
        exact ⟨List.mem_append_left _ hmv, List.mem_append_left _ hpr⟩
      · rcases List.mem_cons.mp h with h | h
        · have hg'g : g' = g := (Ev.append.inj h).2
          subst hg'g
          exact ⟨List.mem_append_right _ (by simp), List.mem_append_right _ (by simp)⟩
        · rcases List.mem_cons.mp h with h | h
          · simp at h
          · simp at h

theorem ledgerInv_processIteration {processed files : List String} {f : String}
    (hf : f ∈ processed) {nb : Nat} {st : CycleState}
    (hP : ledgerInv processed f st) (j : Nat) :
    ledgerInv processed f (processIteration nb files st j) := by
  by_cases hready : (iterFiles files j).length < nb
  · unfold processIteration
    rw [if_pos hready]
    exact hP
  · unfold processIteration
    rw [if_neg hready]
    have hP1 : ledgerInv processed f
        (if st.currentIter = some j then st else { st with allData := [] }) := by
      by_cases hcur : st.currentIter = some j
      · rw [if_pos hcur]; exact hP
      · rw [if_neg hcur]
        obtain ⟨h1, h2, h3, -, h5, h6⟩ := hP
        exact ⟨h1, h2, h3, by simp, h5, h6⟩
    have hfold := foldl_preserve (ledgerInv processed f) (processFile j)
      ((iterFiles files j).insertionSort strLe)
      (if st.currentIter = some j then st else { st with allData := [] })
      hP1
      (fun st' g _ hP' => ledgerInv_processFile hf hP')
    obtain ⟨h1, h2, h3, h4, h5, h6⟩ := hfold
    refine ⟨?_, ?_, ?_, h4, h5, ?_⟩
    · intro j' hcontra
      rcases List.mem_append.mp hcontra with h | h
      · exact h1 j' h
      · simp at h
    · intro hcontra
      rcases List.mem_append.mp hcontra with h | h
      · exact h2 h
      · simp at h
    · intro j' t hcontra
      rcases List.mem_append.mp hcontra with h | h
      · exact h3 j' t h
      · simp at h
    · intro j' g happend
      rcases List.mem_append.mp happend with h | h
      · obtain ⟨hmv, hpr⟩ := h6 j' g h
        exact ⟨List.mem_append_left _ hmv, hpr⟩
      · simp at h

/-- C4: a CSV file whose basename is already in the processed ledger is
never re-parsed by a scan+process cycle — no record is appended for it, no
rendered table contains it, it is not moved again and it stays in the
ledger — and every file that is processed during the cycle is moved into
the ledger afterwards. -/
theorem c4_idempotent_ledger (nb : Nat) (processed files : List String) (f : String)
    (hf : f ∈ processed) :
    (∀ j, Ev.append j f ∉ (runCycle nb processed files).events) ∧
    Ev.move f ∉ (runCycle nb processed files).events ∧
    (∀ j t, Ev.render j t ∈ (runCycle nb processed files).events → f ∉ t) ∧
    f ∈ (runCycle nb processed files).processed ∧
    (∀ j g, Ev.append j g ∈ (runCycle nb processed files).events →
      Ev.move g ∈ (runCycle nb processed files).events ∧
      g ∈ (runCycle nb processed files).processed) := by
  have hmain : ledgerInv processed f (runCycle nb processed files) := by
    unfold runCycle
    refine foldl_preserve (ledgerInv processed f) (processIteration nb files)
      (sortedIterations files) ⟨[], processed, [], none⟩ ?_ ?_
    · refine ⟨?_, ?_, ?_, ?_, ?_, ?_⟩ <;> simp
    · intro st j _ hP
      exact ledgerInv_processIteration hf hP j
  obtain ⟨h1, h2, h3, -, h5, h6⟩ := hmain
  exact ⟨h1, h2, h3, h5 f hf, h6⟩

theorem c4_idempotent_ledger_witness :
    "b01_iteration1.csv" ∈ ["b01_iteration1.csv"] ∧
    (∀ j, Ev.append j "b01_iteration1.csv" ∉
      (runCycle 1 ["b01_iteration1.csv"] ["b01_iteration1.csv"]).events) ∧
    Ev.move "b01_iteration1.csv" ∉
      (runCycle 1 ["b01_iteration1.csv"] ["b01_iteration1.csv"]).events ∧
    (runCycle 1 ["b01_iteration1.csv"] ["b01_iteration1.csv"]).events = [Ev.pdf 1] := by
  have h := c4_idempotent_ledger 1 ["b01_iteration1.csv"] ["b01_iteration1.csv"]
    "b01_iteration1.csv" (by decide)
  exact ⟨by decide, h.1, h.2.1, by decide⟩

/-! ## C6: iteration ordering within the polling loop -/

/-- Order consistency of two events' iteration tags. -/
def tagLe (e1 e2 : Ev) : Prop :=
  ∀ i1 i2, evTag e1 = some i1 → evTag e2 = some i2 → i1 ≤ i2

/-- Whether an event is the append of a record for iteration `i`. -/
def isAppendOf (i : Nat) : Ev → Bool
  | .append j _ => j == i
  | _ => false

/-- Whether an event is a table render of iteration `i`. -/
def isRenderOf (i : Nat) : Ev → Bool
  | .render j _ => j == i
  | _ => false

theorem processFiles_block (j : Nat) :
    ∀ (fs : List String), (∀ f ∈ fs, extract_iteration f = some j) →
    ∀ st : CycleState, (∀ f ∈ st.allData, extract_iteration f = some j) →
    ∃ new, (fs.foldl (processFile j) st).events = st.events ++ new ∧
      (∀ e ∈ new, evTag e = some j) ∧
      (∀ i t, Ev.render i t ∈ new → ∀ f ∈ t, extract_iteration f = some j) ∧
      (∀ i f, Ev.append i f ∈ new → ∃ t, Ev.render i t ∈ new ∧ f ∈ t) ∧
      (∀ f ∈ (fs.foldl (processFile j) st).allData, extract_iteration f = some j) ∧
      (fs.foldl (processFile j) st).currentIter = st.currentIter := by
  intro fs
  induction fs with
  | nil =>
    intro _ st hAll
    exact ⟨[], (List.append_nil _).symm, by intro e he; simp at he,
      by intro i t ht; simp at ht, by intro i f hf; simp at hf, hAll, rfl⟩
  | cons f fs ih =>
    intro hfs st hAll
    have hf : extract_iteration f = some j := hfs f (List.mem_cons_self _ _)
    have hfs' : ∀ g ∈ fs, extract_iteration g = some j :=
      fun g hg => hfs g (List.mem_cons_of_mem _ hg)
    rcases processFile_eq j st f with ⟨-, heq⟩ | ⟨-, heq⟩
    · obtain ⟨new, h1, h2, h3, h4, h5, h6⟩ := ih hfs' st hAll
      refine ⟨new, ?_, h2, h3, h4, ?_, ?_⟩
      · rw [List.foldl_cons, heq]; exact h1
      · rw [List.foldl_cons, heq]; exact h5
      · rw [List.foldl_cons, heq]; exact h6
    · have hAll' : ∀ g ∈ (processFile j st f).allData, extract_iteration g = some j := by
        rw [heq]
        intro g hg
        rcases List.mem_append.mp hg with hx | hx
        · exact hAll g hx
        · have : g = f := by simpa using hx
          subst this; exact hf
      obtain ⟨new, h1, h2, h3, h4, h5, h6⟩ := ih hfs' (processFile j st f) hAll'
      refine ⟨[Ev.append j f, Ev.render j (st.allData ++ [f]), Ev.move f] ++ new,
        ?_, ?_, ?_, ?_, ?_, ?_⟩
      · rw [List.foldl_cons, h1, heq]
        exact List.append_assoc _ _ _
      · intro e he
        rcases List.mem_append.mp he with h | h
        · rcases List.mem_cons.mp h with rfl | h
          · rfl
          · rcases List.mem_cons.mp h with rfl | h
            · rfl
            · have : e = Ev.move f := by simpa using h
              subst this
              exact hf
        · exact h2 e h
      · intro i t ht
        rcases List.mem_append.mp ht with h | h
        · rcases List.mem_cons.mp h with h | h
          · simp at h
          · rcases List.mem_cons.mp h with h | h
            · obtain ⟨-, ht2⟩ := Ev.render.inj h
              subst ht2
              intro g hg
              rcases List.mem_append.mp hg with hx | hx
              · exact hAll g hx
              · have : g = f := by simpa using hx
                subst this; exact hf
            · simp at h
        · exact h3 i t h
      · intro i g hg
        rcases List.mem_append.mp hg with h | h
        · rcases List.mem_cons.mp h with h | h
          · obtain ⟨hi, hg2⟩ := Ev.append.inj h
            subst hi
            subst hg2
            refine ⟨st.allData ++ [g], List.mem_append_left _ ?_, by simp⟩
            exact List.mem_cons_of_mem _ (List.mem_cons_self _ _)
          · rcases List.mem_cons.mp h with h | h
            · simp at h
            · simp at h
        · obtain ⟨t, hren, hgt⟩ := h4 i g h
          exact ⟨t, List.mem_append_right _ hren, hgt⟩
      · rw [List.foldl_cons]; exact h5
      · rw [List.foldl_cons, h6, heq]

theorem processIteration_block (nb : Nat) (files : List String) (st : CycleState)
    (j : Nat) (hcur : st.currentIter ≠ some j) :
    ∃ new, (processIteration nb files st j).events = st.events ++ new ∧
      (∀ e ∈ new, evTag e = some j) ∧
      (∀ i t, Ev.render i t ∈ new → ∀ f ∈ t, extract_iteration f = some j) ∧
      (∀ i f, Ev.append i f ∈ new → ∃ t, Ev.render i t ∈ new ∧ f ∈ t) ∧
      ((processIteration nb files st j).currentIter = st.currentIter ∨
        (processIteration nb files st j).currentIter = some j) := by
  by_cases hready : (iterFiles files j).length < nb
  · unfold processIteration
    rw [if_pos hready]
    exact ⟨[], (List.append_nil _).symm, by intro e he; simp at he,
      by intro i t ht; simp at ht, by intro i f hf; simp at hf, Or.inl rfl⟩
  · unfold processIteration
    rw [if_neg hready, if_neg hcur]
    obtain ⟨new, h1, h2, h3, h4, -, -⟩ := processFiles_block j
      ((iterFiles files j).insertionSort strLe)
      (fun f hf => (mem_sorted_iterFiles hf).1)
      { st with allData := [] } (by intro f hf; simp at hf)
    refine ⟨new ++ [Ev.pdf j], ?_, ?_, ?_, ?_, Or.inr rfl⟩
    · show (((iterFiles files j).insertionSort strLe).foldl (processFile j)
          { st with allData := [] }).events ++ [Ev.pdf j] =
        st.events ++ (new ++ [Ev.pdf j])
      rw [h1]
      exact List.append_assoc _ _ _
    · intro e he
      rcases List.mem_append.mp he with h | h
      · exact h2 e h
      · have : e = Ev.pdf j := by simpa using h
        subst this; rfl
    · intro i t ht
      rcases List.mem_append.mp ht with h | h
      · exact h3 i t h
      · simp at h
    · intro i f hf
      rcases List.mem_append.mp hf with h | h
      · obtain ⟨t, hren, hft⟩ := h4 i f h
        exact ⟨t, List.mem_append_left _ hren, hft⟩
      · simp at h

theorem cycle_fold_spec (nb : Nat) (files : List String) :
    ∀ (its : List Nat), its.Pairwise (· < ·) →
    ∀ st : CycleState,
      (∀ e ∈ st.events, ∀ te, evTag e = some te → ∀ j ∈ its, te ≤ j) →
      st.events.Pairwise tagLe →
      (∀ i t, Ev.render i t ∈ st.events → ∀ f ∈ t, extract_iteration f = some i) →
      (∀ i f, Ev.append i f ∈ st.events → ∃ t, Ev.render i t ∈ st.events ∧ f ∈ t) →
      (st.currentIter = none ∨ ∃ k, st.currentIter = some k ∧ ∀ j ∈ its, k < j) →
      (its.foldl (processIteration nb files) st).events.Pairwise tagLe ∧
      (∀ i t, Ev.render i t ∈ (its.foldl (processIteration nb files) st).events →
        ∀ f ∈ t, extract_iteration f = some i) ∧
      (∀ i f, Ev.append i f ∈ (its.foldl (processIteration nb files) st).events →
        ∃ t, Ev.render i t ∈ (its.foldl (processIteration nb files) st).events ∧
          f ∈ t) := by
  intro its
  induction its with
  | nil =>
    intro _ st _ hpair hhom happ _
    exact ⟨hpair, hhom, happ⟩
  | cons j its ih =>
    intro hsort st htags hpair hhom happ hcur
    have hsort' : its.Pairwise (· < ·) := (List.pairwise_cons.mp hsort).2
    have hjlt : ∀ j' ∈ its, j < j' := (List.pairwise_cons.mp hsort).1
    have hcurj : st.currentIter ≠ some j := by
      rcases hcur with h | ⟨k, hk, hklt⟩
      · rw [h]; simp
      · rw [hk]
        intro hcontra
        have : k = j := Option.some.inj hcontra
        subst this
        exact lt_irrefl k (hklt k (List.mem_cons_self _ _))
    obtain ⟨new, h1, h2, h3, h4, h5⟩ := processIteration_block nb files st j hcurj
    rw [List.foldl_cons]
    refine ih hsort' (processIteration nb files st j) ?_ ?_ ?_ ?_ ?_
    · intro e he te hte j' hj'
      rw [h1] at he
      rcases List.mem_append.mp he with h | h
      · exact htags e h te hte j' (List.mem_cons_of_mem _ hj')
      · have : evTag e = some j := h2 e h
        rw [this] at hte
        have : te = j := (Option.some.inj hte).symm
        subst this
        exact le_of_lt (hjlt j' hj')
    · rw [h1]
      rw [List.pairwise_append]
      refine ⟨hpair, ?_, ?_⟩
      · apply List.pairwise_of_forall_mem_list
        intro e1 h1' e2 h2'
        intro i1 i2 he1 he2
        have hv1 : i1 = j := Option.some.inj ((h2 e1 h1').symm.trans he1).symm
        have hv2 : i2 = j := Option.some.inj ((h2 e2 h2').symm.trans he2).symm
        rw [hv1, hv2]
      · intro e1 h1' e2 h2'
        intro i1 i2 he1 he2
        have hv2 : i2 = j := Option.some.inj ((h2 e2 h2').symm.trans he2).symm
        rw [hv2]
        exact htags e1 h1' i1 he1 j (List.mem_cons_self _ _)
    · intro i t ht
      rw [h1] at ht
      rcases List.mem_append.mp ht with h | h
      · exact hhom i t h
      · have hij : i = j := by
          have := h2 _ h
          exact Option.some.inj this
        subst hij
        exact h3 i t h
    · intro i f hf
      rw [h1] at hf
      rcases List.mem_append.mp hf with h | h
      · obtain ⟨t, hren, hft⟩ := happ i f h
        exact ⟨t, by rw [h1]; exact List.mem_append_left _ hren, hft⟩
      · obtain ⟨t, hren, hft⟩ := h4 i f h
        exact ⟨t, by rw [h1]; exact List.mem_append_right _ hren, hft⟩
    · rcases h5 with h | h
      · rcases hcur with hc | ⟨k, hk, hklt⟩
        · exact Or.inl (h.trans hc)
        · exact Or.inr ⟨k, h.trans hk, fun j' hj' => hklt j' (List.mem_cons_of_mem _ hj')⟩
      · exact Or.inr ⟨j, h, hjlt⟩

theorem sortedIterations_lt (files : List String) :
    (sortedIterations files).Pairwise (· < ·) := by
  unfold sortedIterations
  have hs : List.Sorted natLe
      ((files.filterMap extract_iteration).dedup.insertionSort natLe) :=
    List.sorted_insertionSort natLe _
  have hnd : ((files.filterMap extract_iteration).dedup.insertionSort natLe).Nodup :=
    ((List.perm_insertionSort natLe _).nodup_iff).mpr (List.nodup_dedup _)
  exact (hs.and hnd).imp (fun h => lt_of_le_of_ne h.1 h.2)

theorem runCycle_spec (nb : Nat) (processed files : List String) :
    (runCycle nb processed files).events.Pairwise tagLe ∧
    (∀ i t, Ev.render i t ∈ (runCycle nb processed files).events →
      ∀ f ∈ t, extract_iteration f = some i) ∧
    (∀ i f, Ev.append i f ∈ (runCycle nb processed files).events →
      ∃ t, Ev.render i t ∈ (runCycle nb processed files).events ∧ f ∈ t) := by
  unfold runCycle
  exact cycle_fold_spec nb files (sortedIterations files) (sortedIterations_lt files)
    ⟨[], processed, [], none⟩ (by intro e he; simp at he) (by simp)
    (by intro i t ht; simp at ht) (by intro i f hf; simp at hf) (Or.inl rfl)

theorem runPolls_renders (nb : Nat) (batches : List (List String)) :
    ∀ i t, Ev.render i t ∈ (runPolls nb batches).1 →
      ∀ f ∈ t, extract_iteration f = some i := by
  unfold runPolls
  refine foldl_preserve (fun acc : List Ev × List String × List String =>
      ∀ i t, Ev.render i t ∈ acc.1 → ∀ f ∈ t, extract_iteration f = some i)
    _ batches ([], [], []) ?_ ?_
  · intro i t ht; simp at ht
  · intro acc batch _ hP i t ht
    rcases List.mem_append.mp ht with h | h
    · exact hP i t h
    · exact (runCycle_spec nb acc.2.1 (acc.2.2 ++ batch)).2.1 i t h

/-- C6 counterexample, refuting the run-wide ordering claim: when
iteration 2's files are the only ones present during the first poll and
iteration 1's file arrives before the second poll, both iterations are
fully processed in the run, yet iteration 2's record is appended (and its
table rendered) before any iteration-1 render exists. -/
theorem c6_iteration_order_counterexample :
    (runPolls 1 [["b01_iteration2.csv"], ["b01_iteration1.csv"]]).1 =
      [Ev.append 2 "b01_iteration2.csv", Ev.render 2 ["b01_iteration2.csv"],
       Ev.move "b01_iteration2.csv", Ev.pdf 2,
       Ev.append 1 "b01_iteration1.csv", Ev.render 1 ["b01_iteration1.csv"],
       Ev.move "b01_iteration1.csv", Ev.pdf 1] ∧
    List.countP (isAppendOf 1)
      (runPolls 1 [["b01_iteration2.csv"], ["b01_iteration1.csv"]]).1 = 1 ∧
    List.countP (isAppendOf 2)
      ((runPolls 1 [["b01_iteration2.csv"], ["b01_iteration1.csv"]]).1.take 4) = 1 ∧
    List.countP (isRenderOf 1)
      ((runPolls 1 [["b01_iteration2.csv"], ["b01_iteration1.csv"]]).1.take 4) = 0 :=
  ⟨by decide, by decide, by decide, by decide⟩

/-- C6 (amended): within one poll cycle, iterations are processed in
ascending numeric order — the produced event sequence is monotone in the
iteration tag — every appended record appears in a rendered table of its
own iteration, every rendered table contains only records of its own
iteration (the running collection resets when the iteration changes, so no
table mixes two iterations, also across the whole run), and a record of a
later iteration is appended only after every earlier iteration processed
in that cycle has had its table rendered.  Across poll cycles this
ordering does not hold: an earlier iteration whose files appear only after
a later one was processed is handled in a later cycle. -/
theorem c6_iteration_order_amended (nb : Nat) (processed files : List String)
    (batches : List (List String)) :
    (runCycle nb processed files).events.Pairwise tagLe ∧
    (∀ i t, Ev.render i t ∈ (runCycle nb processed files).events →
      ∀ f ∈ t, extract_iteration f = some i) ∧
    (∀ i f, Ev.append i f ∈ (runCycle nb processed files).events →
      ∃ t, Ev.render i t ∈ (runCycle nb processed files).events ∧ f ∈ t) ∧
    (∀ l1 i2 f l2,
      (runCycle nb processed files).events = l1 ++ Ev.append i2 f :: l2 →
      ∀ i1 g, Ev.append i1 g ∈ (runCycle nb processed files).events → i1 < i2 →
        ∃ t, Ev.render i1 t ∈ l1 ∧ g ∈ t) ∧
    (∀ i t, Ev.render i t ∈ (runPolls nb batches).1 →
      ∀ f ∈ t, extract_iteration f = some i) := by
  obtain ⟨hpair, hhom, happ⟩ := runCycle_spec nb processed files
  refine ⟨hpair, hhom, happ, ?_, runPolls_renders nb batches⟩
  intro l1 i2 f l2 hdecomp i1 g hg hi12
  obtain ⟨t, hren, hgt⟩ := happ i1 g hg
  rw [hdecomp] at hren
  rcases List.mem_append.mp hren with h | h
  · exact ⟨t, h, hgt⟩
  · exfalso
    rw [hdecomp] at hpair
    have hpair2 := (List.pairwise_append.mp hpair).2.1
    rcases List.mem_cons.mp h with h | h
    · simp at h
    · have hrel : tagLe (Ev.append i2 f) (Ev.render i1 t) :=
        List.rel_of_pairwise_cons hpair2 h
      have hle : i2 ≤ i1 := hrel i2 i1 rfl rfl
      exact absurd hi12 (not_lt.mpr hle)

theorem c6_iteration_order_amended_witness :
    (runCycle 1 [] ["a_iteration1.csv", "b_iteration2.csv"]).events =
      [Ev.append 1 "a_iteration1.csv", Ev.render 1 ["a_iteration1.csv"],
       Ev.move "a_iteration1.csv", Ev.pdf 1,
       Ev.append 2 "b_iteration2.csv", Ev.render 2 ["b_iteration2.csv"],
       Ev.move "b_iteration2.csv", Ev.pdf 2] ∧
    (runCycle 1 [] ["a_iteration1.csv", "b_iteration2.csv"]).events.Pairwise tagLe ∧
    (∃ t, Ev.render 1 t ∈
        [Ev.append 1 "a_iteration1.csv", Ev.render 1 ["a_iteration1.csv"],
         Ev.move "a_iteration1.csv", Ev.pdf 1] ∧
      "a_iteration1.csv" ∈ t) := by
  have h := c6_iteration_order_amended 1 [] ["a_iteration1.csv", "b_iteration2.csv"] []
  refine ⟨by decide, h.1, ?_⟩
  exact h.2.2.2.1
    [Ev.append 1 "a_iteration1.csv", Ev.render 1 ["a_iteration1.csv"],
     Ev.move "a_iteration1.csv", Ev.pdf 1]
    2 "b_iteration2.csv"
    [Ev.render 2 ["b_iteration2.csv"], Ev.move "b_iteration2.csv", Ev.pdf 2]
    (by decide) 1 "a_iteration1.csv" (by decide) (by decide)

/-! ## C5: surfacing worker failures -/

/-- C5 counterexample: a worker that has already exited with code 1 when
the top-of-cycle liveness check (methods.py 781) runs makes the loop break
silently — no reader thread is joined, nothing is raised and the captured
stderr is discarded, even though the exit code is non-zero. -/
theorem c5_worker_exit_counterexample :
    superviseLoop 1 ["reference not found"]
      [⟨false, some 1, some 1, []⟩] ⟨[], [], []⟩ =
      (⟨[], [], []⟩, Outcome.exitedSilently 1) ∧
    (1 : ℤ) ≠ 0 :=
  ⟨by decide, by decide⟩

/-- C5 (amended): when a non-zero worker exit is detected at the
per-iteration check — a ready iteration existed in that poll cycle — the
loop joins both output-reader threads and then raises a RuntimeError whose
message is "Subprocess failed with error: " followed by the captured
stderr (or "An unknown error occurred" when nothing was captured); but a
worker exit detected at the top of a poll cycle terminates the loop
silently, without joining the readers or raising, even for a non-zero
code. -/
theorem c5_worker_exit_amended (nb : Nat) (cap : List String) :
    ∀ (obsList : List CycleObs) (st : SupState),
      (∀ rc msg st', superviseLoop nb cap obsList st = (st', Outcome.failed rc msg) →
        rc ≠ 0 ∧ msg = errMsg cap ∧
        ∃ pre, st'.sevents = pre ++ [SEv.joinReaders, SEv.raised (errMsg cap)]) ∧
      (∀ rc st', superviseLoop nb cap obsList st = (st', Outcome.exitedSilently rc) →
        st'.sevents = st.sevents) := by
  intro obsList
  induction obsList with
  | nil =>
    intro st
    constructor
    · intro rc msg st' h
      rw [superviseLoop] at h
      rw [Prod.mk.injEq] at h
      simp at h
    · intro rc st' h
      rw [superviseLoop] at h
      rw [Prod.mk.injEq] at h
      simp at h
  | cons obs rest ih =>
    intro st
    constructor
    · intro rc msg st' h
      rw [superviseLoop] at h
      by_cases hcomp : obs.complete = true
      · simp only [if_pos hcomp] at h
        rw [Prod.mk.injEq] at h
        simp at h
      · simp only [if_neg hcomp] at h
        cases hpt : obs.pollTop with
        | some rc0 =>
          simp only [hpt] at h
          rw [Prod.mk.injEq] at h
          simp at h
        | none =>
          simp only [hpt] at h
          cases hpl : obs.pollLate with
          | some rc0 =>
            simp only [hpl] at h
            by_cases hready : anyReady nb (st.files ++ obs.newFiles) = true
            · simp only [if_pos hready] at h
              by_cases hrc : rc0 = 0
              · simp only [if_pos hrc] at h
                rw [Prod.mk.injEq] at h
                simp at h
              · simp only [if_neg hrc] at h
                rw [Prod.mk.injEq] at h
                obtain ⟨hst, hout⟩ := h
                obtain ⟨hrc2, hmsg⟩ := Outcome.failed.inj hout
                refine ⟨by rw [← hrc2]; exact hrc, hmsg.symm, st.sevents, ?_⟩
                rw [← hst]
            · simp only [if_neg hready] at h
              exact (ih _).1 rc msg st' h
          | none =>
            simp only [hpl] at h
            exact (ih _).1 rc msg st' h
    · intro rc st' h
      rw [superviseLoop] at h
      by_cases hcomp : obs.complete = true
      · simp only [if_pos hcomp] at h
        rw [Prod.mk.injEq] at h
        simp at h
      · simp only [if_neg hcomp] at h
        cases hpt : obs.pollTop with
        | some rc0 =>
          simp only [hpt] at h
          rw [Prod.mk.injEq] at h
          rw [← h.1]
        | none =>
          simp only [hpt] at h
          cases hpl : obs.pollLate with
          | some rc0 =>
            simp only [hpl] at h
            by_cases hready : anyReady nb (st.files ++ obs.newFiles) = true
            · simp only [if_pos hready] at h
              by_cases hrc : rc0 = 0
              · simp only [if_pos hrc] at h
                rw [Prod.mk.injEq] at h
                simp at h
              · simp only [if_neg hrc] at h
                rw [Prod.mk.injEq] at h
                simp at h
            · simp only [if_neg hready] at h
              exact (ih ⟨st.sevents,
                (runCycle nb st.processed (st.files ++ obs.newFiles)).processed,
                remainingFiles (st.files ++ obs.newFiles)
                  (runCycle nb st.processed (st.files ++ obs.newFiles))⟩).2 rc st' h
          | none =>
            simp only [hpl] at h
            exact (ih ⟨st.sevents,
              (runCycle nb st.processed (st.files ++ obs.newFiles)).processed,
              remainingFiles (st.files ++ obs.newFiles)
                (runCycle nb st.processed (st.files ++ obs.newFiles))⟩).2 rc st' h

theorem c5_worker_exit_amended_witness :
    superviseLoop 1 ["reference not found"]
      [⟨false, none, some 1, ["b01_iteration1.csv"]⟩] ⟨[], [], []⟩ =
      (⟨[SEv.joinReaders,
         SEv.raised "Subprocess failed with error: reference not found"],
        [], ["b01_iteration1.csv"]⟩,
       Outcome.failed 1 "Subprocess failed with error: reference not found") ∧
    ((1 : ℤ) ≠ 0 ∧
     "Subprocess failed with error: reference not found" =
       errMsg ["reference not found"] ∧
     ∃ pre, (⟨[SEv.joinReaders,
         SEv.raised "Subprocess failed with error: reference not found"],
        [], ["b01_iteration1.csv"]⟩ : SupState).sevents =
        pre ++ [SEv.joinReaders, SEv.raised (errMsg ["reference not found"])]) := by
  refine ⟨by decide, ?_⟩
  exact (c5_worker_exit_amended 1 ["reference not found"]
    [⟨false, none, some 1, ["b01_iteration1.csv"]⟩] ⟨[], [], []⟩).1
    1 "Subprocess failed with error: reference not found"
    ⟨[SEv.joinReaders,
      SEv.raised "Subprocess failed with error: reference not found"],
     [], ["b01_iteration1.csv"]⟩ (by decide)

end PoreSippr
